import Mathlib

/-!
# A verification model of `tmept_asm.py`, the TMEPT 8-bit CPU assembler

This file gives a shallow embedding, in Lean 4, of the production core of
`src/tools/tmept_asm.py`: the expression evaluator, the tokeniser / line
parser, the preprocessor (includes and user/built-in macro expansion), the
two passes, the six instruction encoders, and the binary image writer.
Definitions follow the Python source function by function; deviations forced
by the host language are recorded in the doc comment of the definition
concerned.  Theorems about the claims of the specification follow the
definitions.

Modelling conventions, used throughout:

* Python strings are modelled as Lean `String`s, and every string operation
  is written out over the underlying character list (Python `str.strip`,
  `str.upper`, regular-expression matches, ...), so that everything
  evaluates inside the kernel.
* Python's unbounded `int` is `Int`.  `v & 0xFF` on a Python integer is the
  least non-negative residue `v % 256` (Python masks with `2^k - 1` act
  on the two's-complement representation), and `v >> k` is `v.fdiv (2^k)`
  (Python's right shift is floor division).
* Python `float`s (produced only by the `/`, `//` and `%` operators inside
  `eval_expr`) are modelled as exact unnormalised fractions `Frac`.  IEEE-754
  rounding is not modelled; every float arising in the theorems below is a
  small dyadic rational on which double arithmetic is exact.
* `dict`s are association lists with in-place update (`dset`), preserving
  the source's insertion-order semantics where it matters.
* Error objects (`AsmError`) are collapsed to their message strings; the
  exact message wording is abridged, only the success/failure split and the
  data carried by successful results are modelled.
* Diagnostic-only data (file names and line numbers on `SourceLine`, the
  listing records of pass 2, warning emission) is omitted: it feeds error
  messages and the cosmetic listing file, which the specification places
  out of scope.
-/

deriving instance DecidableEq for Except

namespace TMEPT

/-! ## Python string helpers -/

/-- Python `str.isspace` characters relevant to `str.strip()`. -/
def isPySpace (c : Char) : Bool :=
  c = ' ' || c = '\t' || c = '\n' || c = '\r' || c.toNat = 11 || c.toNat = 12

/-- Python `str.strip()`: remove leading and trailing whitespace. -/
def pyStrip (s : String) : String :=
  ⟨((s.data.dropWhile isPySpace).reverse.dropWhile isPySpace).reverse⟩

/-- Python `str.upper()` (ASCII, which is all the assembler uses). -/
def toUpperStr (s : String) : String :=
  ⟨s.data.map Char.toUpper⟩

def isDigitC (c : Char) : Bool := '0' ≤ c && c ≤ '9'

def isAlphaC (c : Char) : Bool := ('a' ≤ c && c ≤ 'z') || ('A' ≤ c && c ≤ 'Z')

/-- First character of the regex class `[A-Za-z_]`. -/
def isIdentStart (c : Char) : Bool := isAlphaC c || c = '_'

/-- The regex class `\w` = `[A-Za-z0-9_]`. -/
def isWordC (c : Char) : Bool := isAlphaC c || isDigitC c || c = '_'

def isHexC (c : Char) : Bool :=
  isDigitC c || ('a' ≤ c && c ≤ 'f') || ('A' ≤ c && c ≤ 'F')

def isOctC (c : Char) : Bool := '0' ≤ c && c ≤ '7'

def isBinC (c : Char) : Bool := c = '0' || c = '1'

def digitVal (c : Char) : Nat := c.toNat - '0'.toNat

def hexVal (c : Char) : Nat :=
  if isDigitC c then digitVal c
  else if 'a' ≤ c && c ≤ 'f' then c.toNat - 'a'.toNat + 10
  else c.toNat - 'A'.toNat + 10

def digitsToNat (l : List Char) : Nat :=
  l.foldl (fun acc c => acc * 10 + digitVal c) 0

def hexDigitsToNat (l : List Char) : Nat :=
  l.foldl (fun acc c => acc * 16 + hexVal c) 0

def octDigitsToNat (l : List Char) : Nat :=
  l.foldl (fun acc c => acc * 8 + octVal c) 0
where octVal (c : Char) : Nat := digitVal c

def binDigitsToNat (l : List Char) : Nat :=
  l.foldl (fun acc c => acc * 2 + digitVal c) 0

/-! ## Dictionaries (Python `dict` as an insertion-ordered association list) -/

/-- `d[k]`, `k in d`: first (and, absent duplicates, only) binding wins. -/
def dget {β : Type} : List (String × β) → String → Option β
  | [], _ => none
  | (k', v) :: rest, k => if k' = k then some v else dget rest k

/-- `d[k] = v`: update the existing binding in place, else append. -/
def dset {β : Type} : List (String × β) → String → β → List (String × β)
  | [], k, v => [(k, v)]
  | (k', v') :: rest, k, v =>
    if k' = k then (k, v) :: rest else (k', v') :: dset rest k v

/-- The assembler's symbol table: identifier → signed integer. -/
abbrev SymTab := List (String × Int)

/-! ## Python values inside `eval_expr`

`eval_expr` hands the expression text to Python `eval`, so subexpressions
are Python `int`s or (after a `/`) Python `float`s.  Floats are modelled as
exact unnormalised fractions with positive denominator; no `gcd`
normalisation is performed so that all arithmetic reduces in the kernel. -/

structure Frac where
  num : Int
  den : Int
  deriving DecidableEq, Repr

def Frac.ofInt (n : Int) : Frac := ⟨n, 1⟩

def Frac.add (x y : Frac) : Frac := ⟨x.num * y.den + y.num * x.den, x.den * y.den⟩

def Frac.sub (x y : Frac) : Frac := ⟨x.num * y.den - y.num * x.den, x.den * y.den⟩

def Frac.mul (x y : Frac) : Frac := ⟨x.num * y.num, x.den * y.den⟩

/-- Exact division of fractions, re-signing so the denominator stays
positive.  The caller has already ruled out a zero divisor. -/
def Frac.div (x y : Frac) : Frac :=
  let n := x.num * y.den
  let d := x.den * y.num
  if d < 0 then ⟨-n, -d⟩ else ⟨n, d⟩

/-- `math.floor` of an exact fraction (denominator positive). -/
def Frac.floor (x : Frac) : Int := x.num.fdiv x.den

/-- Truncation toward zero — Python `int(float)` — of an exact fraction
with positive denominator. -/
def Frac.trunc (x : Frac) : Int := x.num.tdiv x.den

inductive PyVal where
  | intV (n : Int)
  | floatV (f : Frac)
  deriving DecidableEq, Repr

def PyVal.toFrac : PyVal → Frac
  | .intV n => Frac.ofInt n
  | .floatV f => f

def PyVal.isInt : PyVal → Bool
  | .intV _ => true
  | .floatV _ => false

/-- Python `int(x)` on an arithmetic value: identity on ints, truncation
toward zero on floats. -/
def pyToInt : PyVal → Int
  | .intV n => n
  | .floatV f => f.trunc

/-! ## The expression grammar

The Python source evaluates the expression text with `eval` after
rewriting `$hex` to `0x…` and `lo(`/`hi(` to calls of two helpers;
`eval_expr`'s docstring and the module header document the supported
fragment: the literals `dec`, `0x`, `0b`, `0o`, `$hex`; identifiers; the
operators `+ - * / % | & ^ ~ << >>` (plus Python's `//`) with Python
precedence; parentheses; and the two intrinsics `lo(e)`, `hi(e)`.  That
documented fragment is what is embedded here, with Python's semantics for
each operator (true division produces a float; bitwise operators and
shifts demand ints and fail on floats; `int()` is applied to the final
result). -/

inductive Tok where
  | num (v : Int)
  | ident (s : String)
  | lparen | rparen
  | plus | minus | star | slash | dslash | percent
  | amp | pipe | caret | tilde
  | shlT | shrT
  deriving DecidableEq, Repr

/-- Tokenise the expression text.  The fuel argument is the remaining
character count plus one; every step consumes at least one character. -/
def tokGo : Nat → List Char → Except String (List Tok)
  | 0, _ => .error "tokeniser out of fuel"
  | _ + 1, [] => .ok []
  | fuel + 1, c :: cs =>
    if isPySpace c then tokGo fuel cs
    else if c = '(' then cons Tok.lparen (tokGo fuel cs)
    else if c = ')' then cons Tok.rparen (tokGo fuel cs)
    else if c = '+' then cons Tok.plus (tokGo fuel cs)
    else if c = '-' then cons Tok.minus (tokGo fuel cs)
    else if c = '*' then cons Tok.star (tokGo fuel cs)
    else if c = '/' then
      match cs with
      | '/' :: cs' => cons Tok.dslash (tokGo fuel cs')
      | _ => cons Tok.slash (tokGo fuel cs)
    else if c = '%' then cons Tok.percent (tokGo fuel cs)
    else if c = '&' then cons Tok.amp (tokGo fuel cs)
    else if c = '|' then cons Tok.pipe (tokGo fuel cs)
    else if c = '^' then cons Tok.caret (tokGo fuel cs)
    else if c = '~' then cons Tok.tilde (tokGo fuel cs)
    else if c = '<' then
      match cs with
      | '<' :: cs' => cons Tok.shlT (tokGo fuel cs')
      | _ => .error "bad character"
    else if c = '>' then
      match cs with
      | '>' :: cs' => cons Tok.shrT (tokGo fuel cs')
      | _ => .error "bad character"
    else if c = '$' then
      -- the source rewrites `$XXXX` to `0xXXXX` before calling `eval`
      let digs := cs.takeWhile isHexC
      if digs = [] then .error "bad dollar literal"
      else cons (Tok.num (hexDigitsToNat digs)) (tokGo fuel (cs.drop digs.length))
    else if isDigitC c then
      if c = '0' then
        match cs with
        | 'x' :: cs' =>
          match baseLit isHexC hexDigitsToNat cs' with
          | none => .error "bad numeric literal"
          | some (v, cs'') => cons (Tok.num v) (tokGo fuel cs'')
        | 'X' :: cs' =>
          match baseLit isHexC hexDigitsToNat cs' with
          | none => .error "bad numeric literal"
          | some (v, cs'') => cons (Tok.num v) (tokGo fuel cs'')
        | 'b' :: cs' =>
          match baseLit isBinC binDigitsToNat cs' with
          | none => .error "bad numeric literal"
          | some (v, cs'') => cons (Tok.num v) (tokGo fuel cs'')
        | 'B' :: cs' =>
          match baseLit isBinC binDigitsToNat cs' with
          | none => .error "bad numeric literal"
          | some (v, cs'') => cons (Tok.num v) (tokGo fuel cs'')
        | 'o' :: cs' =>
          match baseLit isOctC octDigitsToNat cs' with
          | none => .error "bad numeric literal"
          | some (v, cs'') => cons (Tok.num v) (tokGo fuel cs'')
        | 'O' :: cs' =>
          match baseLit isOctC octDigitsToNat cs' with
          | none => .error "bad numeric literal"
          | some (v, cs'') => cons (Tok.num v) (tokGo fuel cs'')
        | _ =>
          -- Python rejects decimal literals with a leading zero ("012")
          if (cs.takeWhile isDigitC) = [] then cons (Tok.num 0) (tokGo fuel cs)
          else .error "leading zero in decimal literal"
      else
        let digs := cs.takeWhile isDigitC
        cons (Tok.num (digitsToNat (c :: digs))) (tokGo fuel (cs.drop digs.length))
    else if isIdentStart c then
      let rest := cs.takeWhile isWordC
      cons (Tok.ident ⟨c :: rest⟩) (tokGo fuel (cs.drop rest.length))
    else .error "bad character"
where
  cons (t : Tok) (r : Except String (List Tok)) : Except String (List Tok) :=
    match r with
    | .error e => .error e
    | .ok ts => .ok (t :: ts)
  baseLit (p : Char → Bool) (conv : List Char → Nat) (cs : List Char) :
      Option (Int × List Char) :=
    let digs := cs.takeWhile p
    if digs = [] then none
    else some ((conv digs : Nat), cs.drop digs.length)

inductive Bop where
  | addB | subB | mulB | divB | flrB | modB
  | shlB | shrB | landB | lxorB | lorB
  deriving DecidableEq, Repr

inductive Ast where
  | lit (n : Int)
  | sym (s : String)
  | call (f : String) (a : Ast)
  | neg (a : Ast)
  | inv (a : Ast)
  | bin (op : Bop) (a b : Ast)
  deriving DecidableEq, Repr

/-- Binary operators with their precedence level (Python's order, lowest
`|` = 0 up to `* / // %` = 5; the spec's §4.1 table lists the same order). -/
def opOfTok : Tok → Option (Bop × Nat)
  | .pipe => some (.lorB, 0)
  | .caret => some (.lxorB, 1)
  | .amp => some (.landB, 2)
  | .shlT => some (.shlB, 3)
  | .shrT => some (.shrB, 3)
  | .plus => some (.addB, 4)
  | .minus => some (.subB, 4)
  | .star => some (.mulB, 5)
  | .slash => some (.divB, 5)
  | .dslash => some (.flrB, 5)
  | .percent => some (.modB, 5)
  | _ => none

/-- Left-associative repetition of the binary operators of one precedence
level; `next` parses the operand one level up. -/
def parseBinL (next : List Tok → Except String (Ast × List Tok)) (lvl : Nat) :
    Nat → Ast → List Tok → Except String (Ast × List Tok)
  | 0, _, _ => .error "expression too deep"
  | fuel + 1, lhs, toks =>
    match toks with
    | t :: rest =>
      match opOfTok t with
      | some (op, l) =>
        if l = lvl then
          match next rest with
          | .error e => .error e
          | .ok (rhs, r) => parseBinL next lvl fuel (Ast.bin op lhs rhs) r
        else .ok (lhs, toks)
      | none => .ok (lhs, toks)
    | [] => .ok (lhs, [])

/-- Precedence-climbing parser for the expression grammar.  Levels 0–5 are
the binary operators (see `opOfTok`), level 6 the unary `-`/`~`, level 7
the atoms. -/
def parseE : Nat → Nat → List Tok → Except String (Ast × List Tok)
  | 0, _, _ => .error "expression too deep"
  | fuel + 1, lvl, toks =>
    if lvl < 6 then
      match parseE fuel (lvl + 1) toks with
      | .error e => .error e
      | .ok (lhs, r) => parseBinL (fun ts => parseE fuel (lvl + 1) ts) lvl fuel lhs r
    else if lvl = 6 then
      match toks with
      | .minus :: rest =>
        match parseE fuel 6 rest with
        | .error e => .error e
        | .ok (a, r) => .ok (Ast.neg a, r)
      | .tilde :: rest =>
        match parseE fuel 6 rest with
        | .error e => .error e
        | .ok (a, r) => .ok (Ast.inv a, r)
      | _ => parseE fuel 7 toks
    else
      match toks with
      | .num v :: rest => .ok (Ast.lit v, rest)
      | .ident s :: .lparen :: rest =>
        match parseE fuel 0 rest with
        | .error e => .error e
        | .ok (a, .rparen :: r) => .ok (Ast.call s a, r)
        | .ok _ => .error "expected closing parenthesis"
      | .ident s :: rest => .ok (Ast.sym s, rest)
      | .lparen :: rest =>
        match parseE fuel 0 rest with
        | .error e => .error e
        | .ok (a, .rparen :: r) => .ok (a, r)
        | .ok _ => .error "expected closing parenthesis"
      | _ => .error "syntax error in expression"

/-- Python's arithmetic on `int`/`float` pairs for one binary operator.
Ints stay ints except under `/`; any float operand floats the result;
bitwise operators and shifts demand ints. -/
def pyBin (op : Bop) (x y : PyVal) : Except String PyVal :=
  match op, x, y with
  | .addB, .intV a, .intV b => .ok (.intV (a + b))
  | .addB, _, _ => .ok (.floatV (x.toFrac.add y.toFrac))
  | .subB, .intV a, .intV b => .ok (.intV (a - b))
  | .subB, _, _ => .ok (.floatV (x.toFrac.sub y.toFrac))
  | .mulB, .intV a, .intV b => .ok (.intV (a * b))
  | .mulB, _, _ => .ok (.floatV (x.toFrac.mul y.toFrac))
  | .divB, _, _ =>
    -- Python 3 `/` is true division: the result is a float even on ints.
    -- The float is modelled as an exact fraction; IEEE-754 rounding and
    -- the OverflowError on huge quotients are not modelled, so theorems
    -- evaluate this case only at small dyadic values where doubles are
    -- exact.
    if y.toFrac.num = 0 then .error "division by zero"
    else .ok (.floatV (x.toFrac.div y.toFrac))
  | .flrB, .intV a, .intV b =>
    if b = 0 then .error "division by zero" else .ok (.intV (a.fdiv b))
  | .flrB, _, _ =>
    if y.toFrac.num = 0 then .error "division by zero"
    else .ok (.floatV (Frac.ofInt ((x.toFrac.div y.toFrac).floor)))
  | .modB, .intV a, .intV b =>
    if b = 0 then .error "division by zero" else .ok (.intV (a.fmod b))
  | .modB, _, _ =>
    if y.toFrac.num = 0 then .error "division by zero"
    else .ok (.floatV (x.toFrac.sub (y.toFrac.mul (Frac.ofInt ((x.toFrac.div y.toFrac).floor)))))
  | .shlB, .intV a, .intV b =>
    if b < 0 then .error "negative shift count"
    else .ok (.intV (a * (2 ^ b.toNat)))
  | .shrB, .intV a, .intV b =>
    if b < 0 then .error "negative shift count"
    else .ok (.intV (a.fdiv (2 ^ b.toNat)))
  | .landB, .intV a, .intV b => .ok (.intV (Int.land a b))
  | .lxorB, .intV a, .intV b => .ok (.intV (Int.xor a b))
  | .lorB, .intV a, .intV b => .ok (.intV (Int.lor a b))
  | _, _, _ => .error "unsupported operand type"

/-- Evaluate a parsed expression against the symbol table.  `lo`/`hi` are
the two helper callables the source injects into the namespace
(`int(x) & 0xFF` and `(int(x) >> 8) & 0xFF`); any other call target fails,
exactly as `eval` does on a non-callable or undefined name. -/
def evalAst (symbols : SymTab) : Ast → Except String PyVal
  | .lit n => .ok (.intV n)
  | .sym s =>
    match dget symbols s with
    | some v => .ok (.intV v)
    | none => .error ("name '" ++ s ++ "' is not defined")
  | .call f a =>
    match evalAst symbols a with
    | .error e => .error e
    | .ok v =>
      if f = "lo" then .ok (.intV ((pyToInt v) % 256))
      else if f = "hi" then .ok (.intV (((pyToInt v).fdiv 256) % 256))
      else .error ("object is not callable: " ++ f)
  | .neg a =>
    match evalAst symbols a with
    | .error e => .error e
    | .ok (.intV n) => .ok (.intV (-n))
    | .ok (.floatV f) => .ok (.floatV ⟨-f.num, f.den⟩)
  | .inv a =>
    match evalAst symbols a with
    | .error e => .error e
    | .ok (.intV n) => .ok (.intV (-n - 1))
    | .ok (.floatV _) => .error "bad operand type for unary invert"
  | .bin op a b =>
    match evalAst symbols a with
    | .error e => .error e
    | .ok va =>
      match evalAst symbols b with
      | .error e => .error e
      | .ok vb => pyBin op va vb

/-- `eval_expr(expr_str, symbols)`: evaluate an integer expression string
against a symbol table; `int()` is applied to the final value.  Any
tokenising, parsing or evaluation failure becomes an `AsmError`
("Cannot evaluate expression …"), modelled as `.error`. -/
def eval_expr (exprStr : String) (symbols : SymTab) : Except String Int :=
  let s := pyStrip exprStr
  match tokGo (s.data.length + 1) s.data with
  | .error e => .error ("Cannot evaluate expression '" ++ exprStr ++ "': " ++ e)
  | .ok toks =>
    match parseE (8 * (toks.length + 2)) 0 toks with
    | .error e => .error ("Cannot evaluate expression '" ++ exprStr ++ "': " ++ e)
    | .ok (ast, []) =>
      match evalAst symbols ast with
      | .error e => .error ("Cannot evaluate expression '" ++ exprStr ++ "': " ++ e)
      | .ok v => .ok (pyToInt v)
    | .ok _ => .error ("Cannot evaluate expression '" ++ exprStr ++ "': trailing input")

/-! ## Tokeniser / line parser -/

/-- `strip_comment(line)`: remove `;` comments, respecting `"`-quoted
strings (needed by `.include "path"`). -/
def stripCommentGo : List Char → Bool → List Char
  | [], _ => []
  | c :: cs, inStr =>
    let inStr' := if c = '"' then !inStr else inStr
    if c = ';' && !inStr' then []
    else c :: stripCommentGo cs inStr'

def strip_comment (line : String) : String :=
  ⟨stripCommentGo line.data false⟩

/-- `parse_register(tok)`: `R0`–`R15`, case-insensitive, optional
surrounding whitespace (regex `[Rr](\d+)` full match, then range check). -/
def parse_register (tok : String) : Except String Nat :=
  match (pyStrip tok).data with
  | c :: rest =>
    if (c = 'R' || c = 'r') && rest ≠ [] && rest.all isDigitC then
      let n := digitsToNat rest
      if n > 15 then .error "Register out of range (max R15)"
      else .ok n
    else .error ("Expected register (R0-R15), got '" ++ tok ++ "'")
  | [] => .error ("Expected register (R0-R15), got '" ++ tok ++ "'")

/-- The operand-shape test of `encode_3std`:
`re.fullmatch(r'[Rr]\d+', s)`. -/
def isRegTok (s : String) : Bool :=
  match s.data with
  | c :: rest => (c = 'R' || c = 'r') && rest ≠ [] && rest.all isDigitC
  | [] => false

/-- `split_operands(operand_str)`: split on commas, respecting
parenthesis depth.  A comma at depth 0 always contributes a (stripped)
part; the final part is appended only when non-empty. -/
def splitOpsGo : List Char → Int → List Char → List String → List String
  | [], _, cur, acc =>
    let last := pyStrip ⟨cur.reverse⟩
    if last ≠ "" then acc ++ [last] else acc
  | c :: cs, depth, cur, acc =>
    if c = '(' then splitOpsGo cs (depth + 1) (c :: cur) acc
    else if c = ')' then splitOpsGo cs (depth - 1) (c :: cur) acc
    else if c = ',' && depth = 0 then
      splitOpsGo cs depth [] (acc ++ [pyStrip ⟨cur.reverse⟩])
    else splitOpsGo cs depth (c :: cur) acc

def split_operands (s : String) : List String :=
  splitOpsGo s.data 0 [] []

/-- A parsed source line.  The Python object also records the originating
file, the 1-based line number and the raw text; those fields feed only
diagnostics and the listing file and are omitted here. -/
structure SourceLine where
  label : Option String
  mnemonic : Option String
  operands : List String
  deriving DecidableEq, Repr

/-- The label prefix of `_parse_one`: regex `^([A-Za-z_]\w*)\s*:`. -/
def matchLabel (l : List Char) : Option (String × List Char) :=
  match l with
  | c :: rest =>
    if isIdentStart c then
      let ids := rest.takeWhile isWordC
      let after := (rest.drop ids.length).dropWhile isPySpace
      match after with
      | ':' :: tl => some (⟨c :: ids⟩, tl)
      | _ => none
    else none
  | [] => none

/-- The mnemonic of `_parse_one`: regex `^([A-Za-z_.]\w*)`. -/
def matchMnemonic (l : List Char) : Option (String × List Char) :=
  match l with
  | c :: rest =>
    if isIdentStart c || c = '.' then
      let ids := rest.takeWhile isWordC
      some (⟨c :: ids⟩, rest.drop ids.length)
    else none
  | [] => none

/-- `_parse_one(line)`: optional label, optional mnemonic (uppercased at
construction), comma-split operand list. -/
def parseOne (line : String) : Option SourceLine :=
  let line := pyStrip line
  if line = "" then none
  else
    let (label, l2) :=
      match matchLabel line.data with
      | some (lab, rest) => (some lab, pyStrip ⟨rest⟩)
      | none => (none, line)
    if l2 = "" then some ⟨label, none, []⟩
    else
      match matchMnemonic l2.data with
      | none => some ⟨label, none, []⟩
      | some (mn, rest) =>
        let rest := pyStrip ⟨rest⟩
        some ⟨label, some (toUpperStr mn),
              if rest = "" then [] else split_operands rest⟩

/-! ## The opcode table -/

inductive Family where
  | std3 | reg2 | noreg2 | lmarF | cmp4F | djn4F
  deriving DecidableEq, Repr

/-- `OPCODES`: mnemonic → (opcode byte, encoding family). -/
def OPCODES : String → Option (Nat × Family)
  | "ADD" => some (0x00, .std3)
  | "ADC" => some (0x01, .std3)
  | "SUB" => some (0x02, .std3)
  | "SBC" => some (0x03, .std3)
  | "AND" => some (0x04, .std3)
  | "OR" => some (0x05, .std3)
  | "NOR" => some (0x06, .std3)
  | "NAD" => some (0x07, .std3)
  | "XOR" => some (0x08, .std3)
  | "CMP" => some (0x09, .std3)
  | "ROL" => some (0x0A, .std3)
  | "SOL" => some (0x0B, .std3)
  | "SZL" => some (0x0C, .std3)
  | "RIL" => some (0x0D, .std3)
  | "ROR" => some (0x0E, .std3)
  | "SOR" => some (0x0F, .std3)
  | "SZR" => some (0x10, .std3)
  | "RIR" => some (0x11, .std3)
  | "INV" => some (0x12, .std3)
  | "INH" => some (0x13, .std3)
  | "INL" => some (0x14, .std3)
  | "INE" => some (0x15, .std3)
  | "INO" => some (0x16, .std3)
  | "IEH" => some (0x17, .std3)
  | "IOH" => some (0x18, .std3)
  | "IEL" => some (0x19, .std3)
  | "IOL" => some (0x1A, .std3)
  | "IFB" => some (0x1B, .std3)
  | "ILB" => some (0x1C, .std3)
  | "REV" => some (0x1D, .std3)
  | "RVL" => some (0x1E, .std3)
  | "RVH" => some (0x1F, .std3)
  | "RVE" => some (0x20, .std3)
  | "RVO" => some (0x21, .std3)
  | "RLE" => some (0x22, .std3)
  | "RHE" => some (0x23, .std3)
  | "RLO" => some (0x24, .std3)
  | "RHO" => some (0x25, .std3)
  | "JMP" => some (0x26, .reg2)
  | "JMZ" => some (0x27, .reg2)
  | "JMN" => some (0x28, .reg2)
  | "JMG" => some (0x29, .reg2)
  | "JMO" => some (0x2A, .reg2)
  | "JIE" => some (0x2B, .reg2)
  | "JIO" => some (0x2C, .reg2)
  | "JNE" => some (0x38, .reg2)
  | "JGE" => some (0x39, .reg2)
  | "JLE" => some (0x3A, .reg2)
  | "MOV" => some (0x2D, .std3)
  | "LMAR" => some (0x2E, .lmarF)
  | "SMAR" => some (0x2F, .reg2)
  | "LOAD" => some (0x30, .reg2)
  | "STOR" => some (0x31, .reg2)
  | "IMAR" => some (0x32, .noreg2)
  | "DMAR" => some (0x33, .noreg2)
  | "ALE" => some (0x34, .cmp4F)
  | "DJN" => some (0x35, .djn4F)
  | "SLE" => some (0x36, .cmp4F)
  | "SJN" => some (0x37, .cmp4F)
  | "PUSH" => some (0x3B, .reg2)
  | "POP" => some (0x3C, .reg2)
  | "CALL" => some (0x3D, .reg2)
  | "RET" => some (0x3E, .noreg2)
  | _ => none

/-- `SINGLE_OPERAND`: the bit-manipulation mnemonics that take one
register operand. -/
def SINGLE_OPERAND : List String :=
  ["INV", "INH", "INL", "INE", "INO", "IEH", "IOH", "IEL", "IOL", "IFB",
   "ILB", "REV", "RVL", "RVH", "RVE", "RVO", "RLE", "RHE", "RLO", "RHO"]

/-! ## Preprocessor — includes and user/built-in macro expansion

The file system is modelled as an association list from path to the list
of raw line strings of that file (one entry per `fh.readlines()` line,
with or without a trailing newline — `strip` removes it either way).
Paths are plain strings; `os.path.abspath` is modelled as the identity,
i.e. the paths stored in the model file system are taken to be already
canonical. -/

abbrev FS := List (String × List String)

def fsGet : FS → String → Option (List String)
  | [], _ => none
  | (k, v) :: rest, p => if k = p then some v else fsGet rest p

/-- `os.path.abspath`, on already-canonical model paths. -/
def absPath (p : String) : String := p

/-- `os.path.isabs`. -/
def isAbs (p : String) : Bool := p.data.headD ' ' = '/'

/-- `os.path.dirname` (posix): everything up to the last `/`, with
trailing slashes stripped unless the result is all slashes (so
`dirname "/a.asm" = "/"`, `dirname "a.asm" = ""`). -/
def dirname (s : String) : String :=
  match s.data.reverse.dropWhile (fun c => c ≠ '/') with
  | [] => ""
  | revHead =>
    -- `revHead` is the reversed prefix of `s` ending at the last `/`
    if revHead.all (fun c => c = '/') then ⟨revHead⟩
    else ⟨(revHead.dropWhile (fun c => c = '/')).reverse⟩

/-- `os.path.join(d, p)` for the shapes the preprocessor produces. -/
def joinPath (d p : String) : String :=
  if d = "" then p
  else if d.data.getLast? = some '/' then d ++ p
  else d ++ "/" ++ p

/-- The macro table: upper-cased name → (parameter names, body lines). -/
abbrev MacroTab := List (String × (List String × List String))

/-- The mutable preprocessor state: the macro table and the eagerly
collected defines. -/
structure PPState where
  macroTab : MacroTab
  defines : SymTab
  deriving DecidableEq, Repr

/-- The `.include` regex `\.include\s+"([^"]+)"` (`re.match`, ignore
case): returns the quoted path. -/
def matchInclude (line : String) : Option String :=
  let l := line.data
  if toUpperStr ⟨l.take 8⟩ = ".INCLUDE" then
    let rest := l.drop 8
    let rest2 := rest.dropWhile isPySpace
    if rest2.length = rest.length then none  -- `\s+` needs ≥ 1 space
    else
      match rest2 with
      | '"' :: tl =>
        let inc := tl.takeWhile (fun c => c ≠ '"')
        if inc = [] then none
        else
          match tl.drop inc.length with
          | '"' :: _ => some ⟨inc⟩
          | _ => none
      | _ => none
  else none

/-- The constant-assignment regex `^([A-Za-z_]\w*)\s*=\s*(.+)$`: returns
(name, right-hand side). -/
def matchAssign (line : String) : Option (String × String) :=
  match line.data with
  | c :: rest =>
    if isIdentStart c then
      let ids := rest.takeWhile isWordC
      let after := (rest.drop ids.length).dropWhile isPySpace
      match after with
      | '=' :: tl =>
        let rhs := tl.dropWhile isPySpace
        if rhs = [] then none else some (⟨c :: ids⟩, ⟨rhs⟩)
      | _ => none
    else none
  | [] => none

/-- The core of the eager-`.equ` regex, after the optional label prefix:
`\.equ\s+(\w+)\s*,\s*(.+)` (ignore case). -/
def matchEquCore (l : List Char) : Option (String × String) :=
  if toUpperStr ⟨l.take 4⟩ = ".EQU" then
    let rest := l.drop 4
    let rest2 := rest.dropWhile isPySpace
    if rest2.length = rest.length then none
    else
      let nm := rest2.takeWhile isWordC
      if nm = [] then none
      else
        match (rest2.drop nm.length).dropWhile isPySpace with
        | ',' :: tl =>
          let rhs := tl.dropWhile isPySpace
          if rhs = [] then none else some (⟨nm⟩, ⟨rhs⟩)
        | _ => none
  else none

/-- The label alternative `[A-Za-z_]\w*\s*:\s*` of the eager-`.equ`
regex. -/
def matchLabelSp (l : List Char) : Option (List Char) :=
  match matchLabel l with
  | some (_, rest) => some (rest.dropWhile isPySpace)
  | none => none

/-- The eager-`.equ` regex
`(?:[A-Za-z_]\w*\s*:\s*)?\.equ\s+(\w+)\s*,\s*(.+)` (ignore case). -/
def matchEqu (line : String) : Option (String × String) :=
  match matchLabelSp line.data with
  | some rest =>
    match matchEquCore rest with
    | some r => some r
    | none => matchEquCore line.data
  | none => matchEquCore line.data

/-- Python `str.replace(pat, rep)`: all non-overlapping occurrences, left
to right.  `pat` is non-empty at every call site, so each step consumes at
least one character; fuel is the input length plus one. -/
def replaceAllGo (pat rep : List Char) : Nat → List Char → List Char
  | 0, l => l
  | _ + 1, [] => []
  | fuel + 1, c :: cs =>
    if pat.isPrefixOf (c :: cs) then
      rep ++ replaceAllGo pat rep fuel ((c :: cs).drop pat.length)
    else c :: replaceAllGo pat rep fuel cs

def replaceAll (s pat rep : String) : String :=
  ⟨replaceAllGo pat.data rep.data (s.data.length + 1) s.data⟩

/-- `re.sub(rf'\b{param}\b', arg, s)`: whole-word replacement, where word
boundaries are tested against `\w`.  `prev` is the character before the
current position (none at the start). -/
def wordReplaceGo (pat rep : List Char) : Nat → Option Char → List Char → List Char
  | 0, _, l => l
  | _ + 1, _, [] => []
  | fuel + 1, prev, c :: cs =>
    let boundaryL := match prev with
      | none => true
      | some p => !isWordC p
    let afterOk :=
      match (c :: cs).drop pat.length with
      | [] => true
      | d :: _ => !isWordC d
    if boundaryL && pat.isPrefixOf (c :: cs) && afterOk then
      rep ++ wordReplaceGo pat rep fuel (pat.getLast?) ((c :: cs).drop pat.length)
    else c :: wordReplaceGo pat rep fuel (some c) cs

def wordReplace (s pat rep : String) : String :=
  ⟨wordReplaceGo pat.data rep.data (s.data.length + 1) none s.data⟩

/-- `_expand_macro`: substitute each parameter (both as `\param` and as a
bare whole word) by the corresponding argument in every body line,
re-parse, and attach the invocation's label to the first expanded line. -/
def expandUserM (params : List String) (body : List String) (sl : SourceLine) :
    Except String (List SourceLine) :=
  if sl.operands.length ≠ params.length then
    .error "macro argument count mismatch"
  else
    .ok (go body [])
where
  subst (line : String) : String :=
    (params.zip sl.operands).foldl
      (fun acc pa => wordReplace (replaceAll acc ("\\" ++ pa.1) pa.2) pa.1 pa.2)
      line
  go : List String → List SourceLine → List SourceLine
    | [], result => result
    | bodyLine :: rest, result =>
      match parseOne (subst bodyLine) with
      | none => go rest result
      | some sub =>
        let sub :=
          if result = [] && sl.label.isSome then
            { sub with label := sl.label }
          else sub
        go rest (result ++ [sub])

/-- `_expand_builtin`: `LOADADDR`, `JMP_L`, `CALL_L`.  The recursive call
the source makes from `JMP_L`/`CALL_L` into the `LOADADDR` case is
inlined (it is the same three-line expansion). -/
def expandBuiltinM (sl : SourceLine) : Except String (List SourceLine) :=
  let mn := toUpperStr (sl.mnemonic.getD "")
  let ops := sl.operands
  let loadaddr := fun (label : Option String) (rn expr : String) =>
    [ (⟨label, some "XOR", [rn, rn, rn]⟩ : SourceLine),
      ⟨none, some "ADD", [rn, "#lo(" ++ expr ++ ")"]⟩,
      ⟨none, some "__LOADADDR_HI__", [rn, expr]⟩ ]
  if mn = "LOADADDR" then
    match ops with
    | [rn, expr] => .ok (loadaddr sl.label rn expr)
    | _ => .error "LOADADDR requires 2 operands"
  else if mn = "JMP_L" then
    match ops with
    | [rn, target] => .ok (loadaddr sl.label rn target ++ [⟨none, some "JMP", [rn]⟩])
    | _ => .error "JMP_L requires 2 operands"
  else
    match ops with
    | [rn, target] => .ok (loadaddr sl.label rn target ++ [⟨none, some "CALL", [rn]⟩])
    | _ => .error "CALL_L requires 2 operands"

/-- The per-line loop of `Preprocessor._process_lines`.  `recF` re-enters
`process_file` for `.include` lines (carrying the current include stack);
`collecting` holds `(name, params)` while inside a `.macro` body and
`mbody` the body collected so far. -/
def ppLines (recF : PPState → String → Except String (List SourceLine × PPState))
    (filename : String) :
    List String → PPState → Option (String × List String) → List String →
    List SourceLine → Except String (List SourceLine × PPState)
  | [], st, collecting, _, out =>
    match collecting with
    | some (nm, _) => .error ("Unterminated .macro '" ++ nm ++ "'")
    | none => .ok (out, st)
  | raw :: rest, st, collecting, mbody, out =>
    let line := pyStrip (strip_comment raw)
    if line = "" then ppLines recF filename rest st collecting mbody out
    else
      match collecting with
      | some (nm, params) =>
        if toUpperStr line = ".ENDM" then
          ppLines recF filename rest
            { st with macroTab := dset st.macroTab (toUpperStr nm) (params, mbody) }
            none [] out
        else ppLines recF filename rest st collecting (mbody ++ [line]) out
      | none =>
        let upper := toUpperStr line
        if ".MACRO".data.isPrefixOf upper.data then
          -- `.macro NAME [params]` — split the remainder on the first
          -- whitespace/comma run, then the params on commas, stripping
          -- an optional leading backslash from each name
          let restLine := pyStrip ⟨line.data.drop 6⟩
          let nameChars := restLine.data.takeWhile (fun c => !(isPySpace c || c = ','))
          if nameChars = [] then .error ".macro requires a name"
          else
            let mname := toUpperStr ⟨nameChars⟩
            let paramStr : String :=
              ⟨(restLine.data.drop nameChars.length).dropWhile
                (fun c => isPySpace c || c = ',')⟩
            let params := (splitCommas paramStr.data [] []).filterMap
              (fun p => let p' := pyStrip p
                        if p' = "" then none
                        else some (⟨p'.data.dropWhile (fun c => c = '\\')⟩ : String))
            ppLines recF filename rest st (some (mname, params)) [] out
        else if ".INCLUDE".data.isPrefixOf upper.data then
          match matchInclude line with
          | none => .error "Malformed .include"
          | some incPath =>
            let incPath :=
              if isAbs incPath then incPath
              else joinPath (dirname filename) incPath
            match recF st incPath with
            | .error e => .error e
            | .ok (ls, st') => ppLines recF filename rest st' none [] (out ++ ls)
        else
          -- `NAME = expr` is rewritten to `.equ NAME, expr`
          let line :=
            match matchAssign line with
            | some (nm, rhs) => ".equ " ++ nm ++ ", " ++ pyStrip rhs
            | none => line
          -- eager `.equ` capture into the defines seed
          let st :=
            match matchEqu line with
            | some (nm, rhs) =>
              match eval_expr rhs st.defines with
              | .ok v => { st with defines := dset st.defines nm v }
              | .error _ => st
            | none => st
          match parseOne line with
          | none => ppLines recF filename rest st none [] out
          | some sl =>
            match sl.mnemonic with
            | none => ppLines recF filename rest st none [] (out ++ [sl])
            | some mnRaw =>
              let mUp := toUpperStr mnRaw
              match dget st.macroTab mUp with
              | some (params, body) =>
                match expandUserM params body sl with
                | .error e => .error e
                | .ok expanded =>
                  ppLines recF filename rest st none [] (out ++ expanded)
              | none =>
                if mUp = "LOADADDR" || mUp = "JMP_L" || mUp = "CALL_L" then
                  match expandBuiltinM sl with
                  | .error e => .error e
                  | .ok expanded =>
                    ppLines recF filename rest st none [] (out ++ expanded)
                else ppLines recF filename rest st none [] (out ++ [sl])
where
  /-- split on bare commas (macro parameter lists have no parens) -/
  splitCommas : List Char → List Char → List String → List String
    | [], cur, acc => acc ++ [⟨cur.reverse⟩]
    | c :: cs, cur, acc =>
      if c = ',' then splitCommas cs [] (acc ++ [⟨cur.reverse⟩])
      else splitCommas cs (c :: cur) acc

/-- `Preprocessor.process_file(path)`: canonicalise, detect include
cycles against the stack, read the file, and process its lines with the
path pushed.  The fuel bounds the include-recursion depth; the cycle
check guarantees any chain longer than the number of distinct files hits
`Circular include` first, so fuel exhaustion is unreachable for runs
whose fuel exceeds the file count. -/
def processFileF : Nat → FS → PPState → List String → String →
    Except String (List SourceLine × PPState)
  | 0, _, _, _, _ => .error "out of fuel"
  | fuel + 1, fs, st, stack, path =>
    let abs := absPath path
    if stack.contains abs then .error ("Circular include: " ++ path)
    else
      match fsGet fs abs with
      | none => .error ("Cannot open '" ++ path ++ "'")
      | some raws =>
        ppLines (fun st' p => processFileF fuel fs st' (stack ++ [abs]) p)
          abs raws st none [] []

/-- `Preprocessor.process_string(text)`: process lines directly with an
empty include stack (includes encountered inside resolve against the
pseudo-filename). -/
def processString (fuel : Nat) (fs : FS) (st : PPState) (raws : List String) :
    Except String (List SourceLine × PPState) :=
  ppLines (fun st' p => processFileF fuel fs st' [] p) "<string>" raws st none [] []

/-! ## Pass 1 — layout -/

/-- `instruction_size(sl, symbols_so_far)`: the byte size used to advance
the location counter in pass 1, by static rule rather than by encoding.
The symbol-table argument is unused, as in the source. -/
def instruction_size (sl : SourceLine) (_symbols : SymTab) : Int :=
  match sl.mnemonic with
  | none => 0
  | some mnRaw =>
    let mn := toUpperStr mnRaw
    if mn = ".ORG" then 0
    else if mn = ".EQU" then 0
    else if mn = ".BYTE" then sl.operands.length
    else if mn = ".WORD" then sl.operands.length * 2
    else if mn = ".RESETVEC" then 0
    else if mn = "__LOADADDR_HI__" then 0
    else
      match OPCODES mn with
      | none => 0
      | some (_, .std3) => 3
      | some (_, .reg2) => 2
      | some (_, .noreg2) => 2
      | some (_, .lmarF) => 3
      | some (_, .cmp4F) => 4
      | some (_, .djn4F) => 4

/-- One iteration of the `pass1` loop: bind the line's label (duplicate
labels error), then dispatch on the mnemonic — `.org` updates `lc` when
its expression evaluates (and silently keeps the old `lc` otherwise),
`.equ` binds unless the name is frozen or the expression defers, and any
other line is appended to the located list and advances `lc` by the
static size rule.  Returns the updated (symbol table, located list,
location counter).  Note that `.org` and `.equ` lines are consumed here
and are never appended to the located list. -/
def pass1Line (frozen : List String) (sl : SourceLine) (syms : SymTab)
    (located : List (SourceLine × Int)) (lc : Int) :
    Except String (SymTab × List (SourceLine × Int) × Int) :=
  match (match sl.label with
         | some lab =>
           match dget syms lab with
           | some _ => Except.error ("Duplicate label '" ++ lab ++ "'")
           | none => Except.ok (dset syms lab lc)
         | none => Except.ok syms) with
  | .error e => .error e
  | .ok syms =>
    match sl.mnemonic with
    | some mnRaw =>
      let mn := toUpperStr mnRaw
      if mn = ".ORG" then
        match sl.operands with
        | [] => .error ".org requires an address"
        | op :: _ =>
          match eval_expr op syms with
          | .ok v => .ok (syms, located, v)
          | .error _ =>
            -- unresolvable in pass 1; `lc` is left unchanged
            .ok (syms, located, lc)
      else if mn = ".EQU" then
        if sl.operands.length < 2 then .error ".equ requires NAME, value"
        else
          let name := sl.operands.headD ""
          if frozen.contains name then
            -- a -D define wins; skip the .equ
            .ok (syms, located, lc)
          else
            match eval_expr (sl.operands.getD 1 "") syms with
            | .ok v => .ok (dset syms name v, located, lc)
            | .error _ =>
              -- forward reference; deferred
              .ok (syms, located, lc)
      else .ok (syms, located ++ [(sl, lc)], lc + instruction_size sl syms)
    | none => .ok (syms, located ++ [(sl, lc)], lc)

/-- The loop of `pass1`: fold `pass1Line` over the lines. -/
def pass1Go (frozen : List String) :
    List SourceLine → SymTab → List (SourceLine × Int) → Int →
    Except String (SymTab × List (SourceLine × Int))
  | [], syms, located, _ => .ok (syms, located)
  | sl :: rest, syms, located, lc =>
    match pass1Line frozen sl syms located lc with
    | .error e => .error e
    | .ok (syms, located, lc) => pass1Go frozen rest syms located lc

/-- `pass1(source_lines, predefined)`: build the symbol table and the
located-line list, starting at `lc = 0` with the predefines seeded and
frozen. -/
def pass1 (sourceLines : List SourceLine) (predefined : SymTab) :
    Except String (SymTab × List (SourceLine × Int)) :=
  pass1Go (predefined.map Prod.fst) sourceLines predefined [] 0

/-! ## Pass 2 — encoding -/

/-- The second-operand view of `encode_3std`'s two-operand form:
`op2 = ops[1].strip()`, then the optional 6502-style `#` immediate marker
is removed. -/
def stripHash (op : String) : String :=
  let op2 := pyStrip op
  if op2.data.headD ' ' = '#' then (⟨op2.data.drop 1⟩ : String) else op2

/-- `encode_3std(opc, sl, symbols)`: the 3-byte standard family, with the
mode chosen by operand shape.  (The result of `bytes([...])` is a list of
byte values; note the `MOV Rd,[MAR]` form yields 3 bytes and every other
form 4.) -/
def encode_3std (opc : Nat) (sl : SourceLine) (symbols : SymTab) :
    Except String (List Nat) :=
  let mn := toUpperStr (sl.mnemonic.getD "")
  let ops := sl.operands
  if mn = "MOV" && ops.length = 2 &&
      toUpperStr (pyStrip (ops.getD 1 "")) = "[MAR]" then
    match parse_register (ops.getD 0 "") with
    | .error e => .error e
    | .ok rd => .ok [opc, (0b11 <<< 6) ||| (rd <<< 2), 0x00]
  else if SINGLE_OPERAND.contains mn then
    match ops with
    | [op0] =>
      match parse_register op0 with
      | .error e => .error e
      | .ok rd => .ok [opc, (0b01 <<< 6) ||| (rd <<< 2), (rd <<< 4) ||| 0x0, 0x00]
    | _ => .error (mn ++ " takes 1 operand")
  else
    match ops with
    | [op0, op1, op2] =>
      match parse_register op0 with
      | .error e => .error e
      | .ok rd =>
        match parse_register op1 with
        | .error e => .error e
        | .ok rs1 =>
          match parse_register op2 with
          | .error e => .error e
          | .ok rs2 =>
            .ok [opc, (0b00 <<< 6) ||| (rd <<< 2), (rs1 <<< 4) ||| rs2, 0x00]
    | [op0, op1] =>
      match parse_register op0 with
      | .error e => .error e
      | .ok rd =>
        let immStr := stripHash op1
        if isRegTok (pyStrip immStr) then
          match parse_register immStr with
          | .error e => .error e
          | .ok rs => .ok [opc, (0b01 <<< 6) ||| (rd <<< 2), (rd <<< 4) ||| rs, 0x00]
        else
          match eval_expr immStr symbols with
          | .error e => .error e
          | .ok v =>
            -- Python `v & 0xFF` on an int is the residue mod 2^8
            .ok [opc, (0b10 <<< 6) ||| (rd <<< 2), (v % 256).toNat, 0x00]
    | [op0] =>
      match parse_register op0 with
      | .error e => .error e
      | .ok rd => .ok [opc, (0b01 <<< 6) ||| (rd <<< 2), (rd <<< 4) ||| rd, 0x00]
    | _ => .error (mn ++ ": unexpected operand count")

/-- `encode_2reg(opc, sl, symbols)`: 2 bytes, single register shifted into
the upper bits of byte 2. -/
def encode_2reg (opc : Nat) (sl : SourceLine) (_symbols : SymTab) :
    Except String (List Nat) :=
  match sl.operands with
  | [op0] =>
    match parse_register op0 with
    | .error e => .error e
    | .ok rn => .ok [opc, rn <<< 2]
  | _ => .error "takes exactly 1 register operand"

/-- `encode_2noreg(opc, sl, symbols)`: 2 bytes, no operand. -/
def encode_2noreg (opc : Nat) (sl : SourceLine) (_symbols : SymTab) :
    Except String (List Nat) :=
  match sl.operands with
  | [] => .ok [opc, 0x00]
  | _ => .error "takes no operands"

/-- `encode_lmar(opc, sl, symbols)`: 3 bytes, 16-bit address, high byte
first.  The range check guarantees the address is non-negative, so the
byte extractions are computed on `Int.toNat`. -/
def encode_lmar (opc : Nat) (sl : SourceLine) (symbols : SymTab) :
    Except String (List Nat) :=
  match sl.operands with
  | [op0] =>
    match eval_expr op0 symbols with
    | .error e => .error e
    | .ok addr =>
      if addr < 0 || addr > 0xFFFF then
        .error "LMAR address out of 16-bit range"
      else
        .ok [opc, (addr.toNat >>> 8) &&& 0xFF, addr.toNat &&& 0xFF]
  | _ => .error "LMAR takes one address operand"

/-- `encode_cmp4(opc, sl, symbols)`: 4 bytes — Rs1, Rs2, Rd, Rjmp. -/
def encode_cmp4 (opc : Nat) (sl : SourceLine) (_symbols : SymTab) :
    Except String (List Nat) :=
  match sl.operands with
  | [op0, op1, op2, op3] =>
    match parse_register op0 with
    | .error e => .error e
    | .ok rs1 =>
      match parse_register op1 with
      | .error e => .error e
      | .ok rs2 =>
        match parse_register op2 with
        | .error e => .error e
        | .ok rd =>
          match parse_register op3 with
          | .error e => .error e
          | .ok rjmp => .ok [opc, (rs1 <<< 4) ||| rs2, rd <<< 4, rjmp <<< 4]
  | _ => .error "requires 4 operands: Rs1, Rs2, Rd, Rjmp"

/-- `encode_djn4(opc, sl, symbols)`: 4 bytes — Rs (replicated into source
and destination), Rjmp. -/
def encode_djn4 (opc : Nat) (sl : SourceLine) (_symbols : SymTab) :
    Except String (List Nat) :=
  match sl.operands with
  | [op0, op1] =>
    match parse_register op0 with
    | .error e => .error e
    | .ok rs =>
      match parse_register op1 with
      | .error e => .error e
      | .ok rjmp => .ok [opc, (rs <<< 4) ||| 0, rs <<< 4, rjmp <<< 4]
  | _ => .error "DJN requires 2 operands: Rs, Rjmp"

/-- The sparse memory map of pass 2: address → byte, insertion-ordered
with in-place overwrite (a Python `dict`). -/
abbrev Memory := List (Int × Nat)

def mset : Memory → Int → Nat → Memory
  | [], a, b => [(a, b)]
  | (a', b') :: rest, a, b =>
    if a' = a then (a, b) :: rest else (a', b') :: mset rest a b

def mget : Memory → Int → Option Nat
  | [], _ => none
  | (a', b') :: rest, a => if a' = a then some b' else mget rest a

/-- `for i, b in enumerate(data): memory[lc + i] = b`. -/
def writeBytes (memory : Memory) (lc : Int) : List Nat → Memory
  | [] => memory
  | b :: bs => writeBytes (mset memory lc b) (lc + 1) bs

/-- `encode_directive(sl, symbols, memory)`: handle directives.  Returns
`none` when the mnemonic is not a directive, else the bytes to emit at
`lc`, the optional new `lc` (for `.org`), and the updated symbol table and
memory (`.equ` rebinds a symbol; `.resetvec` writes two fixed addresses). -/
def encode_directive (sl : SourceLine) (symbols : SymTab) (memory : Memory) :
    Except String (Option (List Nat × Option Int) × SymTab × Memory) :=
  let mn := toUpperStr (sl.mnemonic.getD "")
  let ops := sl.operands
  if mn = ".ORG" then
    match ops with
    | [] => .error ".org requires an address"
    | op :: _ =>
      match eval_expr op symbols with
      | .error e => .error e
      | .ok addr => .ok (some ([], some addr), symbols, memory)
  else if mn = ".EQU" then
    match ops with
    | name :: expr :: _ =>
      match eval_expr expr symbols with
      | .error e => .error e
      | .ok v => .ok (some ([], none), dset symbols name v, memory)
    | _ => .error ".equ requires NAME, value"
  else if mn = ".BYTE" then
    match byteData ops symbols with
    | .error e => .error e
    | .ok data => .ok (some (data, none), symbols, memory)
  else if mn = ".WORD" then
    match wordData ops symbols with
    | .error e => .error e
    | .ok data => .ok (some (data, none), symbols, memory)
  else if mn = ".RESETVEC" then
    match ops with
    | [op0] =>
      match eval_expr op0 symbols with
      | .error e => .error e
      | .ok v =>
        -- addr = v & 0xFFFF, then the two bytes, little-endian, at
        -- the fixed reset-vector addresses
        let addr := (v % 65536).toNat
        let memory := mset memory 0xFFFC (addr &&& 0xFF)
        let memory := mset memory 0xFFFD ((addr >>> 8) &&& 0xFF)
        .ok (some ([], none), symbols, memory)
    | _ => .error ".resetvec requires one address"
  else if mn = "__LOADADDR_HI__" then
    -- sentinel from the LOADADDR expansion: may warn, never emits bytes
    .ok (some ([], none), symbols, memory)
  else
    .ok (none, symbols, memory)
where
  byteData : List String → SymTab → Except String (List Nat)
    | [], _ => .ok []
    | op :: rest, symbols =>
      match eval_expr op symbols with
      | .error e => .error e
      | .ok v =>
        if v < -128 || v > 255 then .error ".byte value out of range"
        else
          match byteData rest symbols with
          | .error e => .error e
          | .ok tl => .ok ((v % 256).toNat :: tl)
  wordData : List String → SymTab → Except String (List Nat)
    | [], _ => .ok []
    | op :: rest, symbols =>
      match eval_expr op symbols with
      | .error e => .error e
      | .ok v =>
        let w := (v % 65536).toNat
        match wordData rest symbols with
        | .error e => .error e
        | .ok tl => .ok ((w &&& 0xFF) :: ((w >>> 8) &&& 0xFF) :: tl)

/-- The prologue of `pass2`: re-resolve any `.equ` that had forward
references in pass 1, walking the located lines in order, never
overwriting a symbol that is not bound by some located `.equ` line
("pre-defined symbols take priority").  Because pass 1 never places
`.equ` lines into `located`, this loop is inert on any `located` list
pass 1 produces. -/
def isEquLine (sl : SourceLine) : Bool :=
  match sl.mnemonic with
  | some m => toUpperStr m = ".EQU" && decide (sl.operands.length ≥ 2)
  | none => false

def resolveForwardEqus (located : List (SourceLine × Int)) (symbols : SymTab) :
    SymTab :=
  let equNames := located.foldl
    (fun acc p => if isEquLine p.1 then acc ++ [p.1.operands.headD ""] else acc) []
  let predefined := symbols.filter (fun kv => !(equNames.contains kv.1))
  located.foldl
    (fun syms p =>
      if isEquLine p.1 then
        let name := p.1.operands.headD ""
        if (dget predefined name).isSome then syms
        else
          match eval_expr (p.1.operands.getD 1 "") syms with
          | .ok v => dset syms name v
          | .error _ => syms
      else syms)
    symbols

/-- The encoding loop of `pass2`: for each located line restore `lc` to
the recorded address, dispatch directives first, then instructions via
the opcode table, and write every emitted byte at `lc + offset`.  The
listing records are omitted (cosmetic output). -/
def pass2Go : List (SourceLine × Int) → SymTab → Memory →
    Except String (SymTab × Memory)
  | [], symbols, memory => .ok (symbols, memory)
  | (sl, addr) :: rest, symbols, memory =>
    let lc := addr
    match sl.mnemonic with
    | none => pass2Go rest symbols memory
    | some mnRaw =>
      let mn := toUpperStr mnRaw
      match encode_directive sl symbols memory with
      | .error e => .error e
      | .ok (some (data, _newLc), symbols, memory) =>
        pass2Go rest symbols (writeBytes memory lc data)
      | .ok (none, symbols, memory) =>
        match OPCODES mn with
        | none => .error ("Unknown mnemonic '" ++ mn ++ "'")
        | some (opc, enc) =>
          let encoded :=
            match enc with
            | .std3 => encode_3std opc sl symbols
            | .reg2 => encode_2reg opc sl symbols
            | .noreg2 => encode_2noreg opc sl symbols
            | .lmarF => encode_lmar opc sl symbols
            | .cmp4F => encode_cmp4 opc sl symbols
            | .djn4F => encode_djn4 opc sl symbols
          match encoded with
          | .error e => .error e
          | .ok data => pass2Go rest symbols (writeBytes memory lc data)

/-- `pass2(located, symbols)`: re-resolve deferred `.equ`s, then encode
everything.  Returns the memory map (the listing is omitted). -/
def pass2 (located : List (SourceLine × Int)) (symbols : SymTab) :
    Except String Memory :=
  let symbols := resolveForwardEqus located symbols
  match pass2Go located symbols [] with
  | .error e => .error e
  | .ok (_, memory) => .ok memory

/-! ## Binary writer -/

/-- `max(memory.keys())` for a non-empty memory map. -/
def maxAddr : Memory → Int
  | [] => 0
  | (a, _) :: rest => rest.foldl (fun acc p => max acc p.1) a

/-- `write_binary(memory, out_path)`: the byte string written to the
file — a zero-initialised buffer of length `max(keys)+1`, overwritten at
each mapped address.  The file-system side is not modelled; the function
returns the buffer. -/
def write_binary (memory : Memory) : List Nat :=
  if memory.isEmpty then []
  else
    let size := (maxAddr memory + 1).toNat
    memory.foldl (fun image p => image.set p.1.toNat p.2)
      (List.replicate size 0)

/-! ## The assembly pipeline, as `main()` composes it -/

/-- Assemble a source given as raw lines, with no caller predefines and an
empty model file system: preprocess (`process_string`), run pass 1, merge
the preprocessor's eagerly collected defines for names not already bound
(as `main()` does), then run pass 2. -/
def assembleLines (raws : List String) : Except String Memory :=
  match processString 1 [] ⟨[], []⟩ raws with
  | .error e => .error e
  | .ok (lines, pp) =>
    match pass1 lines [] with
    | .error e => .error e
    | .ok (syms, located) =>
      let syms := syms ++ pp.defines.filter (fun kv => (dget syms kv.1).isNone)
      pass2 located syms

end TMEPT

namespace TMEPT

/-! ## Claim C1 -/

/-- A successful register parse yields a register number in `0..15`. -/
theorem parse_register_le {t : String} {n : Nat} (h : parse_register t = .ok n) :
    n ≤ 15 := by
  unfold parse_register at h
  split at h
  · split at h
    · dsimp only at h
      split at h
      · exact absurd h (by simp)
      · rename_i hgt
        simp only [Except.ok.injEq] at h
        omega
    · exact absurd h (by simp)
  · exact absurd h (by simp)

/-- Bits 7:6 of the mode byte `(m << 6) | (rd << 2)` recover the mode
when the fields do not overlap. -/
theorem mode_byte_bits {m rd : Nat} (hm : m ≤ 3) (hrd : rd ≤ 15) :
    ((m <<< 6) ||| (rd <<< 2)) >>> 6 = m := by
  interval_cases m <;> interval_cases rd <;> decide

/-- **C1.**  For every `3std`-family instruction, `encode_3std` chooses
the mode bits (bits 7:6 of byte 2) by operand shape, with byte 3 as the
claim states: three register operands give mode `00` and byte 3
`(Rs1<<4)|Rs2`; two operands whose second (after stripping the optional
`#`) matches register syntax give mode `01` and byte 3 `(Rd<<4)|Rs`; two
operands whose second does not match register syntax give mode `10` with
byte 3 `imm & 0xFF`; `MOV Rd, [MAR]` gives mode `11`; and a
single-operand bit-manipulation mnemonic with one register operand gives
mode `01`. -/
theorem c1_3std_mode_by_operand_shape :
    ∀ (mn : String) (opc : Nat) (sl : SourceLine) (symbols : SymTab),
      OPCODES mn = some (opc, Family.std3) →
      sl.mnemonic = some mn →
      ((∀ a b c rd rs1 rs2,
          sl.operands = [a, b, c] →
          toUpperStr mn ∉ SINGLE_OPERAND →
          parse_register a = .ok rd →
          parse_register b = .ok rs1 →
          parse_register c = .ok rs2 →
          encode_3std opc sl symbols =
            .ok [opc, (0b00 <<< 6) ||| (rd <<< 2), (rs1 <<< 4) ||| rs2, 0x00] ∧
          ((0b00 <<< 6) ||| (rd <<< 2)) >>> 6 = 0b00) ∧
       (∀ a b rd rs,
          sl.operands = [a, b] →
          toUpperStr mn ∉ SINGLE_OPERAND →
          ¬(toUpperStr mn = "MOV" ∧ toUpperStr (pyStrip b) = "[MAR]") →
          parse_register a = .ok rd →
          isRegTok (pyStrip (stripHash b)) = true →
          parse_register (stripHash b) = .ok rs →
          encode_3std opc sl symbols =
            .ok [opc, (0b01 <<< 6) ||| (rd <<< 2), (rd <<< 4) ||| rs, 0x00] ∧
          ((0b01 <<< 6) ||| (rd <<< 2)) >>> 6 = 0b01) ∧
       (∀ a b rd v,
          sl.operands = [a, b] →
          toUpperStr mn ∉ SINGLE_OPERAND →
          ¬(toUpperStr mn = "MOV" ∧ toUpperStr (pyStrip b) = "[MAR]") →
          parse_register a = .ok rd →
          isRegTok (pyStrip (stripHash b)) = false →
          eval_expr (stripHash b) symbols = .ok v →
          encode_3std opc sl symbols =
            .ok [opc, (0b10 <<< 6) ||| (rd <<< 2), (v % 256).toNat, 0x00] ∧
          ((0b10 <<< 6) ||| (rd <<< 2)) >>> 6 = 0b10) ∧
       (∀ a b rd,
          sl.operands = [a, b] →
          toUpperStr mn = "MOV" →
          toUpperStr (pyStrip b) = "[MAR]" →
          parse_register a = .ok rd →
          encode_3std opc sl symbols =
            .ok [opc, (0b11 <<< 6) ||| (rd <<< 2), 0x00] ∧
          ((0b11 <<< 6) ||| (rd <<< 2)) >>> 6 = 0b11) ∧
       (∀ a rd,
          sl.operands = [a] →
          toUpperStr mn ∈ SINGLE_OPERAND →
          parse_register a = .ok rd →
          encode_3std opc sl symbols =
            .ok [opc, (0b01 <<< 6) ||| (rd <<< 2), (rd <<< 4) ||| 0x0, 0x00] ∧
          ((0b01 <<< 6) ||| (rd <<< 2)) >>> 6 = 0b01)) := by
  intro mn opc sl symbols _hop hmn
  refine ⟨?_, ?_, ?_, ?_, ?_⟩
  · intro a b c rd rs1 rs2 hops hns hpa hpb hpc
    refine ⟨?_, mode_byte_bits (by decide) (parse_register_le hpa)⟩
    simp [encode_3std, hmn, hops, hns, hpa, hpb, hpc]
  · intro a b rd rs hops hns hnm hpa hreg hps
    refine ⟨?_, mode_byte_bits (by decide) (parse_register_le hpa)⟩
    rcases not_and_or.mp hnm with h | h
    · simp [encode_3std, hmn, hops, hns, hpa, hreg, hps, h]
    · simp [encode_3std, hmn, hops, hns, hpa, hreg, hps, h]
  · intro a b rd v hops hns hnm hpa hreg hev
    refine ⟨?_, mode_byte_bits (by decide) (parse_register_le hpa)⟩
    rcases not_and_or.mp hnm with h | h
    · simp [encode_3std, hmn, hops, hns, hpa, hreg, hev, h]
    · simp [encode_3std, hmn, hops, hns, hpa, hreg, hev, h]
  · intro a b rd hops hmov hmar hpa
    refine ⟨?_, mode_byte_bits (by decide) (parse_register_le hpa)⟩
    simp [encode_3std, hmn, hops, hmov, hmar, hpa]
  · intro a rd hops hsingle hpa
    refine ⟨?_, mode_byte_bits (by decide) (parse_register_le hpa)⟩
    simp [encode_3std, hmn, hops, hsingle, hpa]

/-- **C1, witness**: `ADD R1, R2, R3` (three-register shape) at its
table opcode `0x00`. -/
theorem c1_witness :
    encode_3std 0x00 ⟨none, some "ADD", ["R1", "R2", "R3"]⟩ [] =
      .ok [0x00, (0b00 <<< 6) ||| (1 <<< 2), (2 <<< 4) ||| 3, 0x00] :=
  ((c1_3std_mode_by_operand_shape "ADD" 0x00 ⟨none, some "ADD", ["R1", "R2", "R3"]⟩ []
      (by decide) rfl).1 "R1" "R2" "R3" 1 2 3 rfl (by decide) (by decide)
      (by decide) (by decide)).1

/-! ## Claim C2 -/

/-- **C2, counterexample.**  The spec's expected byte stream for
`.org 0; LMAR target; RET; target: ADD R1,#0` is wrong on two counts:
the assembled image holds `0x84` (mode `10`, destination `R1`), not
`0x08`, at address 6, and the `ADD` emits a fourth pad byte, so address 8
is also populated. -/
theorem c2_counterexample :
    assembleLines [".org 0", "LMAR target", "RET", "target: ADD R1,#0"] =
      .ok [(0, 0x2E), (1, 0x00), (2, 0x05), (3, 0x3E), (4, 0x00),
           (5, 0x00), (6, 0x84), (7, 0x00), (8, 0x00)] ∧
    mget [(0, 0x2E), (1, 0x00), (2, 0x05), (3, 0x3E), (4, 0x00),
          (5, 0x00), (6, 0x84), (7, 0x00), (8, 0x00)] 6 = some 0x84 ∧
    ¬ mget [(0, 0x2E), (1, 0x00), (2, 0x05), (3, 0x3E), (4, 0x00),
          (5, 0x00), (6, 0x84), (7, 0x00), (8, 0x00)] 6 = some 0x08 ∧
    mget [(0, 0x2E), (1, 0x00), (2, 0x05), (3, 0x3E), (4, 0x00),
          (5, 0x00), (6, 0x84), (7, 0x00), (8, 0x00)] 8 = some 0x00 := by
  refine ⟨by decide, by decide, by decide, by decide⟩

/-- **C2, amended.**  Assembling
`.org 0; LMAR target; RET; target: ADD R1,#0` produces exactly the bytes
`2E 00 05 3E 00 00 84 00 00` at addresses 0 through 8 (the `LMAR` operand
resolves to the forward label address 5; byte 6 is the immediate-mode
byte `(0b10<<6)|(1<<2) = 0x84`; byte 8 is the `ADD` encoder's trailing
pad byte), and no bytes at any other address. -/
theorem c2_amended :
    assembleLines [".org 0", "LMAR target", "RET", "target: ADD R1,#0"] =
      .ok [(0, 0x2E), (1, 0x00), (2, 0x05), (3, 0x3E), (4, 0x00),
           (5, 0x00), (6, 0x84), (7, 0x00), (8, 0x00)] := by decide

/-! ## Claim C3 -/

/-- **C3.**  A `.equ` whose expression needs a later label is deferred by
pass 1, but pass 1 never places `.equ` lines into the located list, so
pass 2's re-resolution loop (which walks the located list) is inert and
the name stays unbound: an instruction referencing it makes assembly fail
with an undefined-symbol error, contradicting both the claim and the
source's own comments ("will be re-evaluated in pass 2", "Resolve any
.equ that had forward refs in pass 1"). -/
theorem c3_deferred_equ_never_rebound :
    pass1 [⟨none, some ".EQU", ["ADDR", "target"]⟩,
           ⟨none, some "ADD", ["R1", "#ADDR"]⟩,
           ⟨some "target", some "RET", []⟩] [] =
      .ok ([("target", 3)],
           [(⟨none, some "ADD", ["R1", "#ADDR"]⟩, 0),
            (⟨some "target", some "RET", []⟩, 3)]) ∧
    resolveForwardEqus
        [(⟨none, some "ADD", ["R1", "#ADDR"]⟩, 0),
         (⟨some "target", some "RET", []⟩, 3)] [("target", 3)] =
      [("target", 3)] ∧
    assembleLines [".equ ADDR, target", "ADD R1, #ADDR", "target: RET"] =
      .error "Cannot evaluate expression 'ADDR': name 'ADDR' is not defined" := by
  refine ⟨by decide, by decide, by decide⟩

/-! ## Claim C4 -/

/-- **C4.**  Every `3std` encoding except `MOV Rd,[MAR]` is 4 bytes long
and ends in a `0x00` pad byte, while pass 1's size rule advances the
location counter by only 3 for `3std` mnemonics.  Consequently the pad
byte lands at the next located line's address — overwritten when a
following instruction is emitted there (`ADD R1,#1; SUB R2,#2` ends with
`mem[3] = 0x02`, the `SUB` opcode) — and a trailing `3std` instruction
leaves one extra `0x00` beyond its 3 accounted bytes (`ADD R1,#1` maps
addresses 0–3 and the image is 4 bytes long). -/
theorem c4_3std_pad_byte_beyond_size :
    (∀ (opc : Nat) (sl : SourceLine) (symbols : SymTab) (bs : List Nat),
        encode_3std opc sl symbols = .ok bs →
        ¬(toUpperStr (sl.mnemonic.getD "") = "MOV" ∧ sl.operands.length = 2 ∧
          toUpperStr (pyStrip (sl.operands.getD 1 "")) = "[MAR]") →
        bs.length = 4 ∧ bs.getLast? = some 0x00) ∧
    (∀ (mn : String) (opc : Nat) (sl : SourceLine) (symbols : SymTab),
        sl.mnemonic = some mn →
        OPCODES (toUpperStr mn) = some (opc, Family.std3) →
        instruction_size sl symbols = 3) ∧
    assembleLines ["ADD R1,#1", "SUB R2,#2"] =
      .ok [(0, 0x00), (1, 0x84), (2, 0x01), (3, 0x02), (4, 0x88), (5, 0x02),
           (6, 0x00)] ∧
    assembleLines ["ADD R1,#1"] =
      .ok [(0, 0x00), (1, 0x84), (2, 0x01), (3, 0x00)] ∧
    write_binary [(0, 0x00), (1, 0x84), (2, 0x01), (3, 0x00)] =
      [0x00, 0x84, 0x01, 0x00] := by
  refine ⟨?_, ?_, by decide, by decide, by decide⟩
  · intro opc sl symbols bs henc hnm
    unfold encode_3std at henc
    dsimp only at henc
    split at henc
    · rename_i hguard
      simp only [Bool.and_eq_true, decide_eq_true_eq] at hguard
      exact absurd ⟨hguard.1.1, hguard.1.2, hguard.2⟩ hnm
    · split at henc <;>
        (repeat' split at henc) <;>
        first
          | (injection henc with h; subst h; exact ⟨rfl, rfl⟩)
          | injection henc
  · intro mn opc sl symbols hmn hop
    have h1 : toUpperStr mn ≠ ".ORG" := fun h => by
      rw [h, show OPCODES ".ORG" = none from rfl] at hop
      exact Option.noConfusion hop
    have h2 : toUpperStr mn ≠ ".EQU" := fun h => by
      rw [h, show OPCODES ".EQU" = none from rfl] at hop
      exact Option.noConfusion hop
    have h3 : toUpperStr mn ≠ ".BYTE" := fun h => by
      rw [h, show OPCODES ".BYTE" = none from rfl] at hop
      exact Option.noConfusion hop
    have h4 : toUpperStr mn ≠ ".WORD" := fun h => by
      rw [h, show OPCODES ".WORD" = none from rfl] at hop
      exact Option.noConfusion hop
    have h5 : toUpperStr mn ≠ ".RESETVEC" := fun h => by
      rw [h, show OPCODES ".RESETVEC" = none from rfl] at hop
      exact Option.noConfusion hop
    have h6 : toUpperStr mn ≠ "__LOADADDR_HI__" := fun h => by
      rw [h, show OPCODES "__LOADADDR_HI__" = none from rfl] at hop
      exact Option.noConfusion hop
    simp [instruction_size, hmn, h1, h2, h3, h4, h5, h6, hop]

/-- **C4, witness**: `ADD R1, #1` encodes to 4 bytes ending in `0x00`. -/
theorem c4_witness :
    ∃ bs, encode_3std 0x00 ⟨none, some "ADD", ["R1", "#1"]⟩ [] = .ok bs ∧
      bs.length = 4 ∧ bs.getLast? = some 0x00 :=
  ⟨[0x00, 0x84, 0x01, 0x00], by decide,
    c4_3std_pad_byte_beyond_size.1 0x00 ⟨none, some "ADD", ["R1", "#1"]⟩ []
      [0x00, 0x84, 0x01, 0x00] (by decide) (by decide)⟩

/-! ## Claim C5 -/

/-- **C5.**  For a `.org` whose expression references a later label,
pass 1 leaves `lc` unchanged and continues silently (the claim's first
half, witnessed by the following `RET` being located at address 0), but
pass 2 never re-evaluates the `.org` and never errors — pass 1 drops
`.org` lines from the located list, so assembly silently succeeds at the
stale addresses, contradicting the claim's second half and the source's
own comment ("will error in pass 2"). -/
theorem c5_org_forward_reference_not_an_error :
    pass1 [⟨none, some ".ORG", ["later"]⟩,
           ⟨none, some "RET", []⟩,
           ⟨some "later", some "RET", []⟩] [] =
      .ok ([("later", 2)],
           [(⟨none, some "RET", []⟩, 0), (⟨some "later", some "RET", []⟩, 2)]) ∧
    assembleLines [".org later", "RET", "later: RET"] =
      .ok [(0, 0x3E), (1, 0x00), (2, 0x3E), (3, 0x00)] := by
  refine ⟨by decide, by decide⟩

/-! ## Claim C8 -/

/-- **C8.**  `.resetvec expr` writes `expr & 0xFF` to `0xFFFC` and
`(expr >> 8) & 0xFF` to `0xFFFD` (the code masks with `0xFFFF` first;
the byte values coincide), emits no bytes at `lc` and leaves `lc`
unchanged; pass 1 locates the `.resetvec` line at the current `lc` and
does not advance it, so the next line gets the same address; and with
several `.resetvec`s the last in source order wins (the concrete program
`.resetvec 0x0102; .resetvec 0x0304; RET` maps `0xFFFC ↦ 0x04`,
`0xFFFD ↦ 0x03`). -/
theorem c8_resetvec :
    (∀ (sl : SourceLine) (symbols : SymTab) (memory : Memory) (m e : String)
        (v : Int),
        sl.mnemonic = some m → toUpperStr m = ".RESETVEC" →
        sl.operands = [e] → eval_expr e symbols = .ok v →
        encode_directive sl symbols memory =
          .ok (some ([], none), symbols,
            mset (mset memory 0xFFFC ((v % 65536).toNat &&& 0xFF)) 0xFFFD
              (((v % 65536).toNat >>> 8) &&& 0xFF)) ∧
        ((v % 65536).toNat &&& 0xFF) = (v % 256).toNat ∧
        (((v % 65536).toNat >>> 8) &&& 0xFF) = ((v.fdiv 256) % 256).toNat) ∧
    (∀ (frozen : List String) (rest : List SourceLine) (syms : SymTab)
        (located : List (SourceLine × Int)) (lc : Int) (sl : SourceLine)
        (m : String),
        sl.label = none → sl.mnemonic = some m → toUpperStr m = ".RESETVEC" →
        pass1Go frozen (sl :: rest) syms located lc =
          pass1Go frozen rest syms (located ++ [(sl, lc)]) lc) ∧
    assembleLines [".resetvec 0x0102", ".resetvec 0x0304", "RET"] =
      .ok [(0xFFFC, 0x04), (0xFFFD, 0x03), (0, 0x3E), (1, 0x00)] := by
  refine ⟨?_, ?_, by decide⟩
  · intro sl symbols memory m e v hmn hup hops hev
    refine ⟨?_, ?_, ?_⟩
    · simp [encode_directive, hmn, hup, hops, hev]
    · have hand : ∀ x : Nat, x &&& 255 = x % 256 := fun x =>
        Nat.and_pow_two_sub_one_eq_mod x 8
      rw [hand]
      omega
    · have hand : ∀ x : Nat, x &&& 255 = x % 256 := fun x =>
        Nat.and_pow_two_sub_one_eq_mod x 8
      rw [hand, Nat.shiftRight_eq_div_pow,
        Int.fdiv_eq_ediv _ (by norm_num : (0:Int) ≤ 256)]
      have h1 : (0:Int) ≤ v % 65536 := Int.emod_nonneg _ (by norm_num)
      omega
  · intro frozen rest syms located lc sl m hlab hmn hup
    have hsize : instruction_size sl syms = 0 := by
      simp [instruction_size, hmn, hup]
    simp [pass1Go, pass1Line, hlab, hmn, hup, hsize]

/-- **C8, witness** for the directive-level part, at `.resetvec 0x0102`
over empty symbol table and memory. -/
theorem c8_witness :
    encode_directive ⟨none, some ".RESETVEC", ["0x0102"]⟩ [] [] =
      .ok (some ([], none), [],
        mset (mset [] 0xFFFC ((((0x0102 : Int)) % 65536).toNat &&& 0xFF)) 0xFFFD
          (((((0x0102 : Int)) % 65536).toNat >>> 8) &&& 0xFF)) :=
  (c8_resetvec.1 ⟨none, some ".RESETVEC", ["0x0102"]⟩ [] [] ".RESETVEC" "0x0102"
      0x0102 rfl (by decide) rfl (by decide)).1

/-! ## Claim C6 -/

/-- **C6, counterexample.**  `/` inside an expression is Python's true
division: `(7/2)*2` evaluates to 7, not the 6 the claim's truncating
semantics would give. -/
theorem c6_counterexample :
    eval_expr "(7/2)*2" [] = .ok 7 ∧ eval_expr "(7/2)*2" [] ≠ .ok 6 := by
  refine ⟨by decide, by decide⟩

/-- **C6, amended.**  Division with `/` inside an expression is not
truncating: it is Python's true (float) division, and only the final
result of the whole expression is truncated toward zero by the closing
`int()`.  So `(7/2)*2` evaluates to 7 (a per-occurrence-truncating `/`
would give 6, and so would truncating `10/4` in `(10/4)*2`, which
evaluates to 5), while `7/2` and `-7/2` as whole expressions truncate to
3 and -3.  Every float arising here is a small dyadic rational, on which
IEEE-754 double arithmetic — not modelled by the exact-fraction `Frac` —
is exact; no statement is made about division at magnitudes where double
rounding or overflow behaviour would differ from exact fractions. -/
theorem c6_amended :
    eval_expr "(7/2)*2" [] = .ok 7 ∧
    eval_expr "(10/4)*2" [] = .ok 5 ∧
    eval_expr "7/2" [] = .ok 3 ∧
    eval_expr "-7/2" [] = .ok (-3) := by
  refine ⟨by decide, by decide, by decide, by decide⟩

/-! ## Claim C7 -/

/-- Lookup after in-place dictionary update. -/
theorem dget_dset {β : Type} (d : List (String × β)) (k k' : String) (v : β) :
    dget (dset d k v) k' = if k = k' then some v else dget d k' := by
  induction d with
  | nil => simp [dset, dget]
  | cons a rest ih =>
    obtain ⟨ak, av⟩ := a
    by_cases hak : ak = k
    · subst hak
      simp only [dset, if_pos rfl]
      by_cases hkk : ak = k'
      · subst hkk
        simp [dget]
      · simp [dget, hkk]
    · simp only [dset, if_neg hak, dget]
      by_cases hak' : ak = k'
      · have hkk : ¬(k = k') := fun he => hak (by rw [he, hak'])
        simp [hak', hkk]
      · simp [hak', ih]

/-- A key absent from the frozen key list has no binding in the
predefines. -/
theorem dget_eq_none_of_not_keys {β : Type} (d : List (String × β)) (k : String)
    (h : (d.map Prod.fst).contains k = false) : dget d k = none := by
  induction d with
  | nil => rfl
  | cons a rest ih =>
    simp only [List.map_cons, List.contains_cons, Bool.or_eq_false_iff,
      beq_eq_false_iff_ne, ne_eq] at h
    simp only [dget, ih h.2]
    rw [if_neg (fun he => h.1 he.symm)]

/-- The effect of one `pass1` line on the invariants of C7: predefines
keep their bindings, a successfully bound label is not a predefine, and
nothing appended to the located list is a `.equ` line. -/
theorem pass1Line_inv (P : SymTab) (sl : SourceLine) (syms : SymTab)
    (acc : List (SourceLine × Int)) (lc : Int)
    (res : SymTab × List (SourceLine × Int) × Int)
    (h : pass1Line (P.map Prod.fst) sl syms acc lc = .ok res)
    (hinv : ∀ k v, dget P k = some v → dget syms k = some v) :
    (∀ k v, dget P k = some v → dget res.1 k = some v) ∧
    (∀ k, sl.label = some k → dget P k = none) ∧
    (∀ p ∈ res.2.1, p ∈ acc ∨ isEquLine p.1 = false) := by
  unfold pass1Line at h
  -- the label-binding step
  obtain ⟨syms1, hinv1, hlabP, h⟩ :
      ∃ syms1,
        (∀ k v, dget P k = some v → dget syms1 k = some v) ∧
        (∀ k, sl.label = some k → dget P k = none) ∧
        (match sl.mnemonic with
         | some mnRaw =>
           if toUpperStr mnRaw = ".ORG" then
             match sl.operands with
             | [] => Except.error ".org requires an address"
             | op :: _ =>
               match eval_expr op syms1 with
               | .ok v => Except.ok (syms1, acc, v)
               | .error _ => Except.ok (syms1, acc, lc)
           else
             if toUpperStr mnRaw = ".EQU" then
               if sl.operands.length < 2 then
                 Except.error ".equ requires NAME, value"
               else
                 if (List.map Prod.fst P).contains (sl.operands.headD "") = true then
                   Except.ok (syms1, acc, lc)
                 else
                   match eval_expr (sl.operands.getD 1 "") syms1 with
                   | .ok v => Except.ok (dset syms1 (sl.operands.headD "") v, acc, lc)
                   | .error _ => Except.ok (syms1, acc, lc)
             else Except.ok (syms1, acc ++ [(sl, lc)], lc + instruction_size sl syms1)
         | none => Except.ok (syms1, acc ++ [(sl, lc)], lc)) = .ok res := by
    cases hlab : sl.label with
    | none =>
      rw [hlab] at h
      dsimp only at h
      exact ⟨syms, hinv, fun k hk => Option.noConfusion hk, h⟩
    | some lab =>
      rw [hlab] at h
      dsimp only at h
      cases hdg : dget syms lab with
      | some v0 =>
        rw [hdg] at h
        exact absurd h (by simp)
      | none =>
        rw [hdg] at h
        dsimp only at h
        have hPlab : dget P lab = none := by
          cases hP : dget P lab with
          | none => rfl
          | some v =>
            rw [hinv lab v hP] at hdg
            exact Option.noConfusion hdg
        refine ⟨dset syms lab lc, ?_, ?_, h⟩
        · intro k v hk
          rw [dget_dset]
          split
          · rename_i hlk
            rw [← hlk] at hk
            rw [hk] at hPlab
            exact Option.noConfusion hPlab
          · exact hinv k v hk
        · intro k hk
          have hlk : lab = k := Option.some.inj hk
          rw [← hlk]
          exact hPlab
  -- the mnemonic dispatch
  cases hmn : sl.mnemonic with
  | none =>
    rw [hmn] at h
    injection h with h
    subst h
    refine ⟨hinv1, hlabP, ?_⟩
    intro p hp
    rcases List.mem_append.mp hp with h' | h'
    · exact .inl h'
    · right
      have : p = (sl, lc) := by simpa using h'
      rw [this]
      simp [isEquLine, hmn]
  | some mnRaw =>
    rw [hmn] at h
    dsimp only at h
    by_cases horg : toUpperStr mnRaw = ".ORG"
    · rw [if_pos horg] at h
      cases hops : sl.operands with
      | nil => rw [hops] at h; exact absurd h (by simp)
      | cons op ops' =>
        rw [hops] at h
        dsimp only at h
        cases hev : eval_expr op syms1 with
        | ok v =>
          rw [hev] at h
          injection h with h
          subst h
          exact ⟨hinv1, hlabP, fun p hp => .inl hp⟩
        | error e =>
          rw [hev] at h
          injection h with h
          subst h
          exact ⟨hinv1, hlabP, fun p hp => .inl hp⟩
    · rw [if_neg horg] at h
      by_cases hequ : toUpperStr mnRaw = ".EQU"
      · rw [if_pos hequ] at h
        split at h
        · exact absurd h (by simp)
        · by_cases hfroz : (P.map Prod.fst).contains (sl.operands.headD "")
          · rw [if_pos hfroz] at h
            injection h with h
            subst h
            exact ⟨hinv1, hlabP, fun p hp => .inl hp⟩
          · rw [if_neg hfroz] at h
            have hPname : dget P (sl.operands.headD "") = none :=
              dget_eq_none_of_not_keys P _ (Bool.not_eq_true _ ▸ hfroz)
            cases hev : eval_expr (sl.operands.getD 1 "") syms1 with
            | ok v =>
              rw [hev] at h
              injection h with h
              subst h
              refine ⟨?_, hlabP, fun p hp => .inl hp⟩
              intro k v' hk
              dsimp only
              rw [dget_dset]
              split
              · rename_i hnk
                rw [← hnk] at hk
                rw [hk] at hPname
                exact Option.noConfusion hPname
              · exact hinv1 k v' hk
            | error e =>
              rw [hev] at h
              injection h with h
              subst h
              exact ⟨hinv1, hlabP, fun p hp => .inl hp⟩
      · rw [if_neg hequ] at h
        injection h with h
        subst h
        refine ⟨hinv1, hlabP, ?_⟩
        intro p hp
        rcases List.mem_append.mp hp with h' | h'
        · exact .inl h'
        · right
          have : p = (sl, lc) := by simpa using h'
          rw [this]
          simp [isEquLine, hmn, hequ]

/-- The invariant walk of the whole `pass1` loop. -/
theorem pass1Go_inv (P : SymTab) (lines : List SourceLine) :
    ∀ (syms0 : SymTab) (acc : List (SourceLine × Int)) (lc : Int)
      (out : SymTab × List (SourceLine × Int)),
      pass1Go (P.map Prod.fst) lines syms0 acc lc = .ok out →
      (∀ k v, dget P k = some v → dget syms0 k = some v) →
      ((∀ k v, dget P k = some v → dget out.1 k = some v) ∧
       (∀ sl ∈ lines, ∀ k, sl.label = some k → dget P k = none) ∧
       (∀ p ∈ out.2, p ∈ acc ∨ isEquLine p.1 = false)) := by
  induction lines with
  | nil =>
    intro syms0 acc lc out h hinv
    simp only [pass1Go] at h
    injection h with h
    subst h
    exact ⟨hinv, by simp, fun p hp => .inl hp⟩
  | cons sl rest ih =>
    intro syms0 acc lc out h hinv
    rw [pass1Go] at h
    cases hline : pass1Line (P.map Prod.fst) sl syms0 acc lc with
    | error e => rw [hline] at h; exact absurd h (by simp)
    | ok res =>
      rw [hline] at h
      obtain ⟨res1, res2, res3⟩ := res
      obtain ⟨g1, g2, g3⟩ := pass1Line_inv P sl syms0 acc lc _ hline hinv
      obtain ⟨h1, h2, h3⟩ := ih res1 res2 res3 out h g1
      refine ⟨h1, ?_, ?_⟩
      · intro sl' hsl' k hk
        rcases List.mem_cons.mp hsl' with rfl | hmem
        · exact g2 k hk
        · exact h2 sl' hmem k hk
      · intro p hp
        rcases h3 p hp with hin | hne
        · exact g3 p hin
        · exact .inr hne

/-- A fold whose step fixes every accumulator on every list element is
the identity. -/
theorem foldl_id_of_fix {α β : Type} (f : β → α → β) (l : List α) (b : β)
    (h : ∀ a ∈ l, ∀ acc, f acc a = acc) : l.foldl f b = b := by
  induction l generalizing b with
  | nil => rfl
  | cons x t ih =>
    rw [List.foldl_cons, h x (List.mem_cons_self x t)]
    exact ih b (fun a ha acc => h a (List.mem_cons_of_mem x ha) acc)

/-- Pass 2's `.equ` re-resolution loop does nothing when no located line
is a `.equ` line — which is true of every located list pass 1 produces. -/
theorem resolveForwardEqus_id (located : List (SourceLine × Int)) (syms : SymTab)
    (h : ∀ p ∈ located, isEquLine p.1 = false) :
    resolveForwardEqus located syms = syms := by
  unfold resolveForwardEqus
  exact foldl_id_of_fix _ located syms (fun p hp acc => by simp [h p hp])

/-- **C7.**  Whenever pass 1 succeeds: every caller predefine keeps its
predefined value in the resulting symbol table (`.equ`/`NAME = expr` of
the same name are skipped without changing the binding — any program,
including such `.equ`s, satisfies the conclusion); a label whose name is
a predefine can never be bound (assembly errors instead, so success
implies no source label names a predefine); and no located line is a
`.equ`, so pass 2's re-resolution prologue leaves the symbol table —
used by every expression evaluated during encoding — unchanged. -/
theorem c7_predefines_frozen :
    ∀ (P : SymTab) (lines : List SourceLine) (syms : SymTab)
      (located : List (SourceLine × Int)),
      pass1 lines P = .ok (syms, located) →
      ((∀ k v, dget P k = some v → dget syms k = some v) ∧
       (∀ sl ∈ lines, ∀ k, sl.label = some k → dget P k = none) ∧
       (∀ p ∈ located, isEquLine p.1 = false) ∧
       resolveForwardEqus located syms = syms) := by
  intro P lines syms located h
  obtain ⟨h1, h2, h3⟩ :=
    pass1Go_inv P lines P [] 0 (syms, located) h (fun _ _ hk => hk)
  have h3' : ∀ p ∈ located, isEquLine p.1 = false := by
    intro p hp
    rcases h3 p hp with hemp | hne
    · exact absurd hemp (List.not_mem_nil p)
    · exact hne
  exact ⟨h1, h2, h3', resolveForwardEqus_id located syms h3'⟩

/-- **C7, witness**: with predefine `X = 99`, a program consisting of
`.equ X, 10` assembles with the `.equ` skipped — `X` still maps to 99
after pass 1. -/
theorem c7_witness :
    dget [("X", (99 : Int))] "X" = some 99 :=
  (c7_predefines_frozen [("X", 99)] [⟨none, some ".EQU", ["X", "10"]⟩]
      [("X", 99)] [] (by decide)).1 "X" 99 rfl

/-! ## Claim C9 -/

/-- The write loop of `write_binary` preserves the buffer length. -/
theorem foldl_set_length (l : List (Int × Nat)) :
    ∀ (img : List Nat),
      (l.foldl (fun im p => im.set p.1.toNat p.2) img).length = img.length := by
  induction l with
  | nil => intro img; rfl
  | cons p t ih =>
    intro img
    rw [List.foldl_cons, ih]
    exact List.length_set img p.1.toNat p.2

theorem foldl_max_le_init (l : List (Int × Nat)) :
    ∀ (a : Int), a ≤ l.foldl (fun acc p => max acc p.1) a := by
  induction l with
  | nil => intro a; exact le_refl a
  | cons p t ih =>
    intro a
    rw [List.foldl_cons]
    exact le_trans (le_max_left a p.1) (ih (max a p.1))

theorem mem_le_foldl_max (l : List (Int × Nat)) :
    ∀ (a : Int) (p : Int × Nat), p ∈ l →
      p.1 ≤ l.foldl (fun acc q => max acc q.1) a := by
  induction l with
  | nil => intro a p hp; exact absurd hp (List.not_mem_nil p)
  | cons q t ih =>
    intro a p hp
    rw [List.foldl_cons]
    rcases List.mem_cons.mp hp with rfl | hmem
    · exact le_trans (le_max_right a p.1) (foldl_max_le_init t (max a p.1))
    · exact ih (max a q.1) p hmem

/-- Every mapped address is bounded by `max(memory.keys())`. -/
theorem mem_le_maxAddr (m : Memory) (p : Int × Nat) (hp : p ∈ m) :
    p.1 ≤ maxAddr m := by
  cases m with
  | nil => exact absurd hp (List.not_mem_nil p)
  | cons q t =>
    rcases List.mem_cons.mp hp with rfl | hmem
    · exact foldl_max_le_init t p.1
    · exact mem_le_foldl_max t q.1 p hmem

/-- A bound key of the memory map is among the mapped addresses. -/
theorem mget_some_key (m : Memory) (k : Int) {v : Nat} (h : mget m k = some v) :
    k ∈ m.map Prod.fst := by
  induction m with
  | nil => exact absurd h (by simp [mget])
  | cons q t ih =>
    by_cases hqk : q.1 = k
    · simp [hqk]
    · simp only [mget, if_neg hqk] at h
      simp [ih h]

/-- The value the write loop leaves at offset `k`: the mapped byte when
address `k` is in the (duplicate-free, in-range) map, the original buffer
byte otherwise. -/
theorem foldl_set_getD (l : List (Int × Nat)) :
    ∀ (img : List Nat) (k : Nat),
      (l.map Prod.fst).Nodup →
      (∀ p ∈ l, 0 ≤ p.1) →
      (∀ p ∈ l, p.1.toNat < img.length) →
      (l.foldl (fun im p => im.set p.1.toNat p.2) img).getD k 0 =
        (match mget l (k : Int) with
         | some v => v
         | none => img.getD k 0) := by
  induction l with
  | nil => intro img k _ _ _; rfl
  | cons p t ih =>
    intro img k hnd hpos hb
    obtain ⟨a, b⟩ := p
    have hnd' : (t.map Prod.fst).Nodup := (List.nodup_cons.mp hnd).2
    have hnotmem : a ∉ t.map Prod.fst := (List.nodup_cons.mp hnd).1
    have ha : (0 : Int) ≤ a := hpos (a, b) (List.mem_cons_self _ _)
    have hblen : a.toNat < img.length := hb (a, b) (List.mem_cons_self _ _)
    have hlen' : ∀ p ∈ t, p.1.toNat < (img.set a.toNat b).length := by
      intro p hp
      rw [List.length_set]
      exact hb p (List.mem_cons_of_mem _ hp)
    rw [List.foldl_cons,
      ih (img.set a.toNat b) k hnd' (fun p hp => hpos p (List.mem_cons_of_mem _ hp))
        hlen']
    by_cases hak : a = (k : Int)
    · have hmget_t : mget t (k : Int) = none := by
        cases hm : mget t (k : Int) with
        | none => rfl
        | some v => exact absurd (hak ▸ mget_some_key t _ hm) hnotmem
      have hkn : a.toNat = k := by omega
      simp only [hmget_t, mget, if_pos hak]
      rw [List.getD_eq_getElem?_getD, List.getElem?_set, if_pos hkn,
        if_pos (hkn ▸ hblen)]
      rfl
    · have hkn : a.toNat ≠ k := by omega
      simp only [mget, if_neg hak]
      cases hm : mget t (k : Int) with
      | some v => rfl
      | none =>
        rw [List.getD_eq_getElem?_getD, List.getElem?_set, if_neg hkn,
          ← List.getD_eq_getElem?_getD]

/-- **C9.**  For every sparse address→byte map (duplicate-free keys, as a
Python `dict` guarantees, and 16-bit — in particular non-negative —
addresses, as the data model specifies), the image writer produces a
buffer of length `max(address) + 1` (0 when the map is empty) whose byte
at every mapped offset is the mapped value and whose byte at every
unmapped offset is `0x00`. -/
theorem c9_image_writer :
    ∀ (m : Memory),
      (m.map Prod.fst).Nodup →
      (∀ p ∈ m, 0 ≤ p.1) →
      ((write_binary m).length = if m = [] then 0 else (maxAddr m).toNat + 1) ∧
      (∀ (k v : Nat), mget m (k : Int) = some v → (write_binary m).getD k 0 = v) ∧
      (∀ (k : Nat), mget m (k : Int) = none → (write_binary m).getD k 0 = 0) := by
  intro m hnd hpos
  by_cases hm : m = []
  · subst hm
    refine ⟨by simp [write_binary], ?_, ?_⟩
    · intro k v h
      exact absurd h (by simp [mget])
    · intro k _
      simp [write_binary]
  · have hmax0 : (0 : Int) ≤ maxAddr m := by
      cases m with
      | nil => exact absurd rfl hm
      | cons q t =>
        exact le_trans (hpos q (List.mem_cons_self _ _)) (foldl_max_le_init t q.1)
    have hbound : ∀ p ∈ m, p.1.toNat <
        (List.replicate ((maxAddr m + 1).toNat) 0).length := by
      intro p hp
      rw [List.length_replicate]
      have h1 := mem_le_maxAddr m p hp
      have h2 := hpos p hp
      omega
    have hwb : write_binary m =
        m.foldl (fun im p => im.set p.1.toNat p.2)
          (List.replicate ((maxAddr m + 1).toNat) 0) := by
      unfold write_binary
      rw [if_neg (by simpa using hm)]
    refine ⟨?_, ?_, ?_⟩
    · rw [hwb, foldl_set_length, List.length_replicate, if_neg hm]
      omega
    · intro k v h
      rw [hwb, foldl_set_getD m _ k hnd hpos hbound, h]
    · intro k h
      rw [hwb, foldl_set_getD m _ k hnd hpos hbound, h]
      by_cases hk : k < (List.replicate ((maxAddr m + 1).toNat) 0).length
      · rw [List.getD_eq_getElem?_getD, List.getElem?_replicate,
          if_pos (by simpa using hk)]
        rfl
      · rw [List.getD_eq_getElem?_getD, List.getElem?_eq_none (by
          rw [List.length_replicate] at hk ⊢
          omega)]
        rfl

/-- **C9, witness** at the map `{0 ↦ 0xAA, 4 ↦ 0xBB}`. -/
theorem c9_witness :
    (write_binary [((0 : Int), 0xAA), ((4 : Int), 0xBB)]).getD 4 0 = 0xBB :=
  (c9_image_writer [(0, 0xAA), (4, 0xBB)] (by decide) (by decide)).2.1 4 0xBB
    (by decide)

/-! ## Claim C10 -/

/-- `dirname` of a directory (non-empty, no trailing slash) joined to a
slash-free file name gives back the directory. -/
theorem dirname_append_slash (d : String) (tl : List Char) (hne : d ≠ "")
    (hlast : d.data.getLast? ≠ some '/') (htl : ('/' : Char) ∉ tl) :
    dirname (d ++ (⟨'/' :: tl⟩ : String)) = d := by
  obtain ⟨dl⟩ := d
  unfold dirname
  have hdata : ((⟨dl⟩ : String) ++ (⟨'/' :: tl⟩ : String)).data = dl ++ '/' :: tl := by
    rw [String.data_append]
  rw [hdata]
  have hrev : (dl ++ '/' :: tl).reverse = tl.reverse ++ (['/'] ++ dl.reverse) := by
    rw [List.reverse_append, List.reverse_cons, List.append_assoc]
  rw [hrev]
  have hdw1 : tl.reverse.dropWhile (fun c => decide (c ≠ '/')) = [] := by
    rw [List.dropWhile_eq_nil_iff]
    intro x hx
    simp only [List.mem_reverse] at hx
    exact decide_eq_true (fun he => htl (he ▸ hx))
  rw [List.dropWhile_append, hdw1]
  simp only [List.isEmpty_nil, if_true]
  have hdw2 : (['/'] ++ dl.reverse).dropWhile (fun c => decide (c ≠ '/')) =
      '/' :: dl.reverse := by
    simp [List.dropWhile_cons]
  rw [hdw2]
  cases hrevd : dl.reverse with
  | nil =>
    exfalso
    apply hne
    have hnil : dl = [] := by
      have := congrArg List.reverse hrevd
      simpa using this
    rw [show (⟨dl⟩ : String) = (⟨[]⟩ : String) from by rw [hnil]]
  | cons c rest =>
    have hc : c ≠ '/' := by
      intro hcs
      apply hlast
      show dl.getLast? = some '/'
      rw [← List.head?_reverse, hrevd, hcs]
      rfl
    have hall : (('/' : Char) :: c :: rest).all (fun x => decide (x = '/')) = false := by
      simp [hc]
    dsimp only
    rw [hall]
    simp only [Bool.false_eq_true, if_false]
    rw [show List.dropWhile (fun x => decide (x = '/')) ('/' :: c :: rest) =
        c :: rest from by simp [List.dropWhile_cons, hc]]
    show String.mk ((c :: rest).reverse) = String.mk dl
    rw [← hrevd, List.reverse_reverse]

/-- `os.path.join` for a plain directory prefix. -/
theorem joinPath_plain (d p : String) (hne : d ≠ "")
    (hlast : d.data.getLast? ≠ some '/') :
    joinPath d p = d ++ "/" ++ p := by
  unfold joinPath
  rw [if_neg hne, if_neg hlast]

/-- Appending different suffixes to the same prefix gives different
strings. -/
theorem append_ne_append (d x y : String) (h : x ≠ y) : d ++ x ≠ d ++ y := by
  intro he
  apply h
  have hd := congrArg String.data he
  rw [String.data_append, String.data_append] at hd
  exact String.ext (List.append_cancel_left hd)

/-- Processing a file whose only line is `.include "lib.asm"` reduces to
re-entering `process_file` on the resolved path. -/
theorem ppLines_single_include
    (recF : PPState → String → Except String (List SourceLine × PPState))
    (filename : String) (st : PPState) :
    ppLines recF filename [".include \"lib.asm\""] st none [] [] =
      (match recF st (joinPath (dirname filename) "lib.asm") with
       | .error e => .error e
       | .ok (ls, st') => .ok (ls, st')) := rfl

/-- Processing a file whose only line is `RET` yields the parsed line and
an unchanged state (no macro named `RET` being defined). -/
theorem ppLines_single_ret
    (recF : PPState → String → Except String (List SourceLine × PPState))
    (filename : String) (defs : SymTab) :
    ppLines recF filename ["RET"] ⟨[], defs⟩ none [] [] =
      .ok ([⟨none, some "RET", []⟩], ⟨[], defs⟩) := rfl

/-- **C10.**  Include processing: a path whose canonical form is already
on the include stack raises `Circular include` before any recursion (so a
self-including file errors in finite time, as the closed fourth conjunct
shows at fuel 9); a file that cannot be opened raises `Cannot open`; and
a relative include path resolves against the directory of the including
file — for every directory `d`, a file `d/main.asm` reading
`.include "lib.asm"` pulls in the lines of `d/lib.asm`. -/
theorem c10_include_resolution :
    (∀ (fuel : Nat) (fs : FS) (st : PPState) (stack : List String) (path : String),
        stack.contains (absPath path) = true →
        processFileF (fuel + 1) fs st stack path =
          .error ("Circular include: " ++ path)) ∧
    (∀ (fuel : Nat) (fs : FS) (st : PPState) (stack : List String) (path : String),
        stack.contains (absPath path) = false →
        fsGet fs (absPath path) = none →
        processFileF (fuel + 1) fs st stack path =
          .error ("Cannot open '" ++ path ++ "'")) ∧
    (∀ (fuel : Nat) (fs : FS) (defs : SymTab) (d : String),
        d ≠ "" → d.data.getLast? ≠ some '/' →
        fsGet fs (d ++ "/main.asm") = some [".include \"lib.asm\""] →
        fsGet fs (d ++ "/lib.asm") = some ["RET"] →
        processFileF (fuel + 2) fs ⟨[], defs⟩ [] (d ++ "/main.asm") =
          .ok ([⟨none, some "RET", []⟩], ⟨[], defs⟩)) ∧
    processFileF 9 [("/a.asm", [".include \"a.asm\""])] ⟨[], []⟩ [] "/a.asm" =
      .error "Circular include: /a.asm" := by
  refine ⟨?_, ?_, ?_, by decide⟩
  · intro fuel fs st stack path h
    simp only [processFileF, absPath] at h ⊢
    rw [if_pos h]
  · intro fuel fs st stack path h1 h2
    simp only [processFileF, absPath] at h1 h2 ⊢
    rw [if_neg (fun hc => Bool.false_ne_true (h1 ▸ hc)), h2]
  · intro fuel fs defs d hne hlast hmain hlib
    have hdir : dirname (d ++ "/main.asm") = d := by
      have he : (d ++ "/main.asm") = d ++ (⟨'/' :: ("main.asm").data⟩ : String) := rfl
      rw [he]
      exact dirname_append_slash d _ hne hlast (by decide)
    have hjoin : joinPath d "lib.asm" = d ++ "/lib.asm" := by
      rw [joinPath_plain d "lib.asm" hne hlast]
      apply String.ext
      rw [String.data_append, String.data_append, String.data_append]
      rw [show ("/lib.asm" : String).data = '/' :: ("lib.asm" : String).data from rfl]
      simp
    have hne2 : ¬((d ++ "/lib.asm" : String) = d ++ "/main.asm") :=
      append_ne_append d "/lib.asm" "/main.asm" (by decide)
    have hinner :
        processFileF (fuel + 1) fs ⟨[], defs⟩ ([] ++ [d ++ "/main.asm"])
          (d ++ "/lib.asm") = .ok ([⟨none, some "RET", []⟩], ⟨[], defs⟩) := by
      rw [processFileF]
      simp only [absPath, List.nil_append]
      rw [if_neg (by
        intro hc
        have hmem : (d ++ "/lib.asm" : String) = d ++ "/main.asm" := by
          simpa using hc
        exact hne2 hmem)]
      rw [hlib]
      rfl
    show processFileF (fuel + 1 + 1) fs ⟨[], defs⟩ [] (d ++ "/main.asm") = _
    rw [processFileF]
    simp only [absPath]
    rw [if_neg (by simp), hmain]
    dsimp only
    rw [ppLines_single_include, hdir, hjoin]
    rw [hinner]

/-- **C10, witness**: a file whose canonical path is already on the
include stack errors with `Circular include` at once. -/
theorem c10_witness :
    processFileF 5 [] ⟨[], []⟩ ["/x.asm"] "/x.asm" =
      .error "Circular include: /x.asm" :=
  c10_include_resolution.1 4 [] ⟨[], []⟩ ["/x.asm"] "/x.asm" (by decide)

end TMEPT
